import Mathlib

/-!
# EisenMatrix Calendar — verification of the temporal-projection core

Shallow embedding of the recurrence-aware task engine
(`src/lib/utils.ts`, `src/App.tsx`, `src/components/TaskModal.tsx`).

Calendar dates are modelled as `Nat` day numbers counted from the local
calendar day 1970-01-01 (day 0); instants (JS millisecond timestamps) are
`Nat` milliseconds since that midnight.  The host runtime's timezone is
taken to be UTC, so local midnight truncation is `ts / msPerDay`.  All
calendar arithmetic (the behaviour of the JS `Date` object and of the
date-fns helpers used by the source) is embedded as proleptic-Gregorian
arithmetic on these day numbers, via fuel-based structural recursion so
that everything evaluates inside the kernel.
-/

/-- Milliseconds per calendar day. -/
def msPerDay : Nat := 86400000

/-- Calendar day (local midnight truncation) of a millisecond timestamp. -/
def dayOfTs (ts : Nat) : Nat := ts / msPerDay

/-- Gregorian leap-year test (JS `Date` / date-fns semantics). -/
def isLeap (y : Nat) : Bool := (y % 4 == 0 && y % 100 != 0) || (y % 400 == 0)

/-- Number of days in year `y`. -/
def daysInYear (y : Nat) : Nat := if isLeap y then 366 else 365

/-- Number of days of month `m` (1-based) in year `y`. -/
def monthLen (y m : Nat) : Nat :=
  match m with
  | 1 => 31
  | 2 => if isLeap y then 29 else 28
  | 3 => 31
  | 4 => 30
  | 5 => 31
  | 6 => 30
  | 7 => 31
  | 8 => 31
  | 9 => 30
  | 10 => 31
  | 11 => 30
  | _ => 31

/-- Total days of the `n` consecutive years starting at year `y`. -/
def sumDaysFrom (y : Nat) : Nat → Nat
  | 0 => 0
  | n + 1 => daysInYear y + sumDaysFrom (y + 1) n

/-- Day number of January 1 of year `y` (years before 1970 clamp to 0;
all dates handled by the application are on/after 1970). -/
def jan1 (y : Nat) : Nat := sumDaysFrom 1970 (y - 1970)

/-- Total days of the `k` consecutive months starting at month `m` of year `y`. -/
def monthSumFrom (y m : Nat) : Nat → Nat
  | 0 => 0
  | k + 1 => monthLen y m + monthSumFrom y (m + 1) k

/-- Days of year `y` strictly before month `m`. -/
def monthPre (y m : Nat) : Nat := monthSumFrom y 1 (m - 1)

/-- Day number of the civil date `y-m-d` (1-based month and day).
Day overflow rolls into the following month exactly as the JS
`new Date(y, m-1, d)` constructor normalises it. -/
def dayFromCivil (y m d : Nat) : Nat := jan1 y + monthPre y m + (d - 1)

/-- Fuel-based year extraction: starting at year `y` with `doy` days left,
peel whole years off.  With sufficient fuel returns the year containing the
day together with the day-of-year offset. -/
def yearGo : Nat → Nat → Nat → Nat × Nat
  | 0, y, doy => (y, doy)
  | fuel + 1, y, doy =>
    if doy < daysInYear y then (y, doy) else yearGo fuel (y + 1) (doy - daysInYear y)

/-- Fuel-based month extraction inside year `y`: from month `m` with `doy`
days of offset left, returns (month, 1-based day-of-month). -/
def monthGo : Nat → Nat → Nat → Nat → Nat × Nat
  | 0, _, m, doy => (m, doy + 1)
  | fuel + 1, y, m, doy =>
    if doy < monthLen y m then (m, doy + 1) else monthGo fuel y (m + 1) (doy - monthLen y m)

/-- Civil date (year, month, day-of-month) of a day number. -/
def civilOfDay (d : Nat) : Nat × Nat × Nat :=
  let p := yearGo (d + 1) 1970 d
  let q := monthGo 12 p.1 1 p.2
  (p.1, q.1, q.2)

/-- Calendar year of a day number (JS `getFullYear`). -/
def yearOf (d : Nat) : Nat := (civilOfDay d).1

/-- Calendar month, 1-based, of a day number (JS `getMonth() + 1`). -/
def monthOf (d : Nat) : Nat := (civilOfDay d).2.1

/-- Day of month, 1-based, of a day number (JS `getDate`). -/
def dayOfMonth (d : Nat) : Nat := (civilOfDay d).2.2

/-- Day of week of a day number, Sunday = 0 (JS `getDay`); 1970-01-01 was a
Thursday. -/
def dayOfWeek (d : Nat) : Nat := (d + 4) % 7

/-! ## Calendar correctness lemmas -/

theorem monthLen_pos (y m : Nat) : 0 < monthLen y m := by
  unfold monthLen
  split <;> first | omega | (split <;> omega)

theorem daysInYear_pos (y : Nat) : 365 ≤ daysInYear y := by
  unfold daysInYear
  split <;> omega

theorem sumDaysFrom_succ_right (y n : Nat) :
    sumDaysFrom y (n + 1) = sumDaysFrom y n + daysInYear (y + n) := by
  induction n generalizing y with
  | zero => simp [sumDaysFrom]
  | succ k ih =>
    rw [sumDaysFrom, ih (y + 1), sumDaysFrom]
    have h9 : y + 1 + k = y + (k + 1) := by omega
    rw [h9]
    omega

theorem sumDaysFrom_le (y n : Nat) : 365 * n ≤ sumDaysFrom y n := by
  induction n generalizing y with
  | zero => simp [sumDaysFrom]
  | succ k ih =>
    have h1 := daysInYear_pos y
    have h2 := ih (y + 1)
    rw [sumDaysFrom]
    omega

theorem monthSumFrom_succ_right (y m k : Nat) :
    monthSumFrom y m (k + 1) = monthSumFrom y m k + monthLen y (m + k) := by
  induction k generalizing m with
  | zero => simp [monthSumFrom]
  | succ j ih =>
    rw [monthSumFrom, ih (m + 1), monthSumFrom]
    have h9 : m + 1 + j = m + (j + 1) := by omega
    rw [h9]
    omega

theorem monthSumFrom_mono (y a b : Nat) (hab : a ≤ b) :
    monthSumFrom y 1 a ≤ monthSumFrom y 1 b := by
  induction b with
  | zero =>
    have ha : a = 0 := by omega
    simp [ha]
  | succ n ihb =>
    rcases Nat.lt_or_ge a (n + 1) with h | h
    · have h1 := ihb (by omega)
      rw [monthSumFrom_succ_right]
      omega
    · have ha : a = n + 1 := by omega
      simp [ha]

theorem monthSumFrom_year (y : Nat) : monthSumFrom y 1 12 = daysInYear y := by
  simp only [monthSumFrom, monthLen, daysInYear]
  split <;> omega

/-- Days before a month plus that month's length stay within the year. -/
theorem monthPre_add_len_le (y m : Nat) (hm1 : 1 ≤ m) (hm2 : m ≤ 12) :
    monthPre y m + monthLen y m ≤ daysInYear y := by
  unfold monthPre
  have hstep := monthSumFrom_succ_right y 1 (m - 1)
  have hmm : 1 + (m - 1) = m := by omega
  rw [hmm] at hstep
  have hmono := monthSumFrom_mono y m 12 hm2
  have hfull := monthSumFrom_year y
  have hm' : (m - 1) + 1 = m := by omega
  rw [hm'] at hstep
  omega

/-- Soundness of year peeling: with fuel at least `doy`, the result pair
`(y', doy')` satisfies `y ≤ y'`, the consumed offset accounts exactly for
the skipped years, and `doy' < daysInYear y'`. -/
theorem yearGo_spec (fuel : Nat) : ∀ y doy, doy ≤ 365 * fuel →
    y ≤ (yearGo fuel y doy).1 ∧
    sumDaysFrom y ((yearGo fuel y doy).1 - y) + (yearGo fuel y doy).2 = doy ∧
    (yearGo fuel y doy).2 < daysInYear (yearGo fuel y doy).1 := by
  induction fuel with
  | zero =>
    intro y doy h
    have hd : doy = 0 := by omega
    subst hd
    have h1 := daysInYear_pos y
    simp [yearGo, sumDaysFrom]
    omega
  | succ f ih =>
    intro y doy h
    rw [yearGo]
    split
    · simp [sumDaysFrom]
      omega
    · rename_i hge
      have hpos := daysInYear_pos y
      have hclose : doy - daysInYear y ≤ 365 * f := by
        omega
      have hrec := ih (y + 1) (doy - daysInYear y) hclose
      refine ⟨by omega, ?_, hrec.2.2⟩
      have heq : (yearGo f (y + 1) (doy - daysInYear y)).1 - y
          = ((yearGo f (y + 1) (doy - daysInYear y)).1 - (y + 1)) + 1 := by omega
      rw [heq, sumDaysFrom]
      omega

/-- Completeness of year peeling: starting at `y` on the day
`sumDaysFrom y n + doy` with `doy` inside year `y + n` lands on `(y+n, doy)`. -/
theorem yearGo_of_sum : ∀ n fuel y doy, n < fuel → doy < daysInYear (y + n) →
    yearGo fuel y (sumDaysFrom y n + doy) = (y + n, doy) := by
  intro n
  induction n with
  | zero =>
    intro fuel y doy hf hd
    match fuel, hf with
    | f + 1, _ =>
      rw [yearGo]
      simp only [sumDaysFrom, Nat.zero_add]
      simp only [Nat.add_zero] at hd
      simp [hd]
  | succ k ih =>
    intro fuel y doy hf hd
    match fuel, hf with
    | f + 1, hf =>
      rw [yearGo]
      have hpos := daysInYear_pos y
      have hns : ¬ (sumDaysFrom y (k + 1) + doy < daysInYear y) := by
        rw [sumDaysFrom]
        omega
      simp only [hns, if_false]
      have harg : sumDaysFrom y (k + 1) + doy - daysInYear y = sumDaysFrom (y + 1) k + doy := by
        rw [sumDaysFrom]
        omega
      have hd' : doy < daysInYear (y + 1 + k) := by
        have h9 : y + 1 + k = y + (k + 1) := by omega
        rw [h9]
        exact hd
      rw [harg, ih f (y + 1) doy (by omega) hd']
      have h9 : y + 1 + k = y + (k + 1) := by omega
      rw [h9]

/-- Soundness of month peeling: if the offset lies within the `k` months
starting at `m` and the fuel covers them, the result is a valid month/day. -/
theorem monthGo_spec : ∀ fuel k y m doy, doy < monthSumFrom y m k → k ≤ fuel + 1 →
    m ≤ (monthGo fuel y m doy).1 ∧
    (monthGo fuel y m doy).1 < m + k ∧
    monthSumFrom y m ((monthGo fuel y m doy).1 - m) + ((monthGo fuel y m doy).2 - 1) = doy ∧
    1 ≤ (monthGo fuel y m doy).2 ∧
    (monthGo fuel y m doy).2 ≤ monthLen y (monthGo fuel y m doy).1 := by
  intro fuel
  induction fuel with
  | zero =>
    intro k y m doy hdoy hk
    match k, hk with
    | 0, _ =>
      simp [monthSumFrom] at hdoy
    | 1, _ =>
      simp only [monthSumFrom, Nat.add_zero] at hdoy
      have h1 := monthLen_pos y m
      simp [monthGo, monthSumFrom]
      omega
  | succ f ih =>
    intro k y m doy hdoy hk
    rw [monthGo]
    split
    · rename_i hlt
      dsimp only
      have hkpos : 0 < k := by
        by_contra h
        have hk0 : k = 0 := by omega
        subst hk0
        simp [monthSumFrom] at hdoy
      refine ⟨by omega, by omega, ?_, by omega, by omega⟩
      simp [monthSumFrom]
    · rename_i hge
      have hpos := monthLen_pos y m
      have hk2 : 2 ≤ k := by
        match k with
        | 0 => simp [monthSumFrom] at hdoy
        | 1 =>
          simp only [monthSumFrom, Nat.add_zero] at hdoy
          omega
        | k + 2 => omega
      have hsplit : monthSumFrom y m k = monthLen y m + monthSumFrom y (m + 1) (k - 1) := by
        match k, hk2 with
        | j + 2, _ =>
          rw [monthSumFrom]
          simp
      have hdoy' : doy - monthLen y m < monthSumFrom y (m + 1) (k - 1) := by
        omega
      have hrec := ih (k - 1) y (m + 1) (doy - monthLen y m) hdoy' (by omega)
      refine ⟨by omega, by omega, ?_, hrec.2.2.2.1, hrec.2.2.2.2⟩
      have hm' : (monthGo f y (m + 1) (doy - monthLen y m)).1 - m
          = ((monthGo f y (m + 1) (doy - monthLen y m)).1 - (m + 1)) + 1 := by omega
      rw [hm', monthSumFrom]
      omega

/-- Completeness of month peeling. -/
theorem monthGo_of_sum : ∀ k fuel y m dom, k < fuel + 1 → 1 ≤ dom →
    dom ≤ monthLen y (m + k) →
    monthGo fuel y m (monthSumFrom y m k + (dom - 1)) = (m + k, dom) := by
  intro k
  induction k with
  | zero =>
    intro fuel y m dom hf h1 h2
    simp only [Nat.add_zero] at h2
    match fuel with
    | 0 =>
      simp [monthGo, monthSumFrom]
      omega
    | f + 1 =>
      rw [monthGo]
      have hlt : monthSumFrom y m 0 + (dom - 1) < monthLen y m := by
        simp [monthSumFrom]
        omega
      simp only [monthSumFrom, Nat.zero_add] at hlt ⊢
      simp [hlt]
      omega
  | succ j ih =>
    intro fuel y m dom hf h1 h2
    match fuel, hf with
    | f + 1, hf =>
      rw [monthGo]
      have hpos := monthLen_pos y m
      have hns : ¬ (monthSumFrom y m (j + 1) + (dom - 1) < monthLen y m) := by
        rw [monthSumFrom]
        omega
      simp only [hns, if_false]
      have harg : monthSumFrom y m (j + 1) + (dom - 1) - monthLen y m
          = monthSumFrom y (m + 1) j + (dom - 1) := by
        rw [monthSumFrom]
        omega
      have h2' : dom ≤ monthLen y (m + 1 + j) := by
        have h9 : m + 1 + j = m + (j + 1) := by omega
        rw [h9]
        exact h2
      rw [harg, ih f y (m + 1) dom (by omega) h1 h2']
      have h9 : m + 1 + j = m + (j + 1) := by omega
      rw [h9]

/-- Unfolding equation for `civilOfDay` with the lets resolved. -/
theorem civilOfDay_eq (d : Nat) :
    civilOfDay d = ((yearGo (d + 1) 1970 d).1,
      (monthGo 12 (yearGo (d + 1) 1970 d).1 1 (yearGo (d + 1) 1970 d).2).1,
      (monthGo 12 (yearGo (d + 1) 1970 d).1 1 (yearGo (d + 1) 1970 d).2).2) := rfl

/-- Full characterisation of `civilOfDay`: the produced triple is a valid
civil date whose day number is the input. -/
theorem civilOfDay_spec (d : Nat) :
    1970 ≤ yearOf d ∧ 1 ≤ monthOf d ∧ monthOf d ≤ 12 ∧
    1 ≤ dayOfMonth d ∧ dayOfMonth d ≤ monthLen (yearOf d) (monthOf d) ∧
    jan1 (yearOf d) + monthPre (yearOf d) (monthOf d) + (dayOfMonth d - 1) = d := by
  have hy := yearGo_spec (d + 1) 1970 d (by omega)
  have hdoy : (yearGo (d + 1) 1970 d).2 < monthSumFrom (yearGo (d + 1) 1970 d).1 1 12 := by
    rw [monthSumFrom_year]
    exact hy.2.2
  have hm := monthGo_spec 12 12 (yearGo (d + 1) 1970 d).1 1 (yearGo (d + 1) 1970 d).2 hdoy (by omega)
  have hyear : yearOf d = (yearGo (d + 1) 1970 d).1 := by
    rw [yearOf, civilOfDay_eq]
  have hmonth : monthOf d = (monthGo 12 (yearGo (d + 1) 1970 d).1 1 (yearGo (d + 1) 1970 d).2).1 := by
    rw [monthOf, civilOfDay_eq]
  have hdom : dayOfMonth d = (monthGo 12 (yearGo (d + 1) 1970 d).1 1 (yearGo (d + 1) 1970 d).2).2 := by
    rw [dayOfMonth, civilOfDay_eq]
  rw [hyear, hmonth, hdom]
  refine ⟨by omega, by omega, by omega, hm.2.2.2.1, hm.2.2.2.2, ?_⟩
  have hsum := hy.2.1
  have hmsum := hm.2.2.1
  unfold jan1 monthPre
  omega

/-- Round-trip: converting a valid civil date to a day number and back is
the identity. -/
theorem civilOfDay_dayFromCivil (y m dom : Nat)
    (hy : 1970 ≤ y) (hm1 : 1 ≤ m) (hm2 : m ≤ 12)
    (hd1 : 1 ≤ dom) (hd2 : dom ≤ monthLen y m) :
    civilOfDay (dayFromCivil y m dom) = (y, m, dom) := by
  have hdoy : monthPre y m + (dom - 1) < daysInYear y := by
    have := monthPre_add_len_le y m hm1 hm2
    omega
  have hn : y - 1970 < dayFromCivil y m dom + 1 := by
    have h1 := sumDaysFrom_le 1970 (y - 1970)
    unfold dayFromCivil jan1
    omega
  have hdoy' : monthPre y m + (dom - 1) < daysInYear (1970 + (y - 1970)) := by
    have h9 : 1970 + (y - 1970) = y := by omega
    rw [h9]
    exact hdoy
  have hyg : yearGo (dayFromCivil y m dom + 1) 1970 (dayFromCivil y m dom)
      = (y, monthPre y m + (dom - 1)) := by
    have h0 := yearGo_of_sum (y - 1970) (dayFromCivil y m dom + 1) 1970
      (monthPre y m + (dom - 1)) hn hdoy'
    have h9 : 1970 + (y - 1970) = y := by omega
    rw [h9] at h0
    have harg : sumDaysFrom 1970 (y - 1970) + (monthPre y m + (dom - 1)) = dayFromCivil y m dom := by
      unfold dayFromCivil jan1
      omega
    rw [harg] at h0
    exact h0
  have hd2' : dom ≤ monthLen y (1 + (m - 1)) := by
    have h9 : 1 + (m - 1) = m := by omega
    rw [h9]
    exact hd2
  have hmg : monthGo 12 y 1 (monthPre y m + (dom - 1)) = (m, dom) := by
    have h0 := monthGo_of_sum (m - 1) 12 y 1 dom (by omega) hd1 hd2'
    have h9 : 1 + (m - 1) = m := by omega
    rw [h9] at h0
    unfold monthPre
    exact h0
  rw [civilOfDay_eq, hyg]
  simp only [hmg]

/-- Day-number bounds of the extracted year. -/
theorem jan1_yearOf_le (d : Nat) :
    jan1 (yearOf d) ≤ d ∧ d < jan1 (yearOf d + 1) := by
  obtain ⟨hy, hm1, hm2, hd1, hd2, heq⟩ := civilOfDay_spec d
  constructor
  · omega
  · have hj : jan1 (yearOf d + 1) = jan1 (yearOf d) + daysInYear (yearOf d) := by
      unfold jan1
      have h9 : yearOf d + 1 - 1970 = (yearOf d - 1970) + 1 := by omega
      rw [h9, sumDaysFrom_succ_right]
      have h8 : 1970 + (yearOf d - 1970) = yearOf d := by omega
      rw [h8]
    rw [hj]
    have hdoy := monthPre_add_len_le (yearOf d) (monthOf d) hm1 hm2
    omega

/-- `jan1` is monotone. -/
theorem jan1_mono {a b : Nat} (h : a ≤ b) : jan1 a ≤ jan1 b := by
  unfold jan1
  have hgen : ∀ k n, sumDaysFrom 1970 n ≤ sumDaysFrom 1970 (n + k) := by
    intro k
    induction k with
    | zero =>
      intro n
      simp
    | succ j ih =>
      intro n
      have h1 := ih n
      have h9 : n + (j + 1) = (n + j) + 1 := by omega
      rw [h9, sumDaysFrom_succ_right]
      have h2 := daysInYear_pos (1970 + (n + j))
      omega
  have hh := hgen ((b - 1970) - (a - 1970)) (a - 1970)
  have h9 : (a - 1970) + ((b - 1970) - (a - 1970)) = b - 1970 := by omega
  rw [h9] at hh
  exact hh

/-! ## Decimal rendering (JS `String(number)`) -/

/-- Decimal rendering of a natural number, as JS `String(value)` renders a
non-negative integer.  Uses the kernel-evaluable core renderer. -/
def natStr (n : Nat) : String := Nat.repr n

/-- The ten decimal digit characters. -/
def digitChars : List Char := ['0', '1', '2', '3', '4', '5', '6', '7', '8', '9']

theorem digitChar_mem (m : Nat) (h : m < 10) : Nat.digitChar m ∈ digitChars := by
  interval_cases m <;> decide

theorem toDigitsCore_chars (fuel : Nat) : ∀ n acc,
    (∀ c ∈ acc, c ∈ digitChars) → ∀ c ∈ Nat.toDigitsCore 10 fuel n acc, c ∈ digitChars := by
  induction fuel with
  | zero =>
    intro n acc hacc c hc
    exact hacc c hc
  | succ f ih =>
    intro n acc hacc c hc
    simp only [Nat.toDigitsCore] at hc
    have hd : Nat.digitChar (n % 10) ∈ digitChars := digitChar_mem _ (by omega)
    by_cases hz : n / 10 = 0
    · rw [if_pos hz] at hc
      rcases List.mem_cons.mp hc with hc | hc
      · rw [hc]
        exact hd
      · exact hacc c hc
    · rw [if_neg hz] at hc
      refine ih (n / 10) (Nat.digitChar (n % 10) :: acc) ?_ c hc
      intro c' hc'
      rcases List.mem_cons.mp hc' with hc' | hc'
      · rw [hc']
        exact hd
      · exact hacc c' hc'

theorem natStr_chars (n : Nat) : ∀ c ∈ (natStr n).data, c ∈ digitChars := by
  intro c hc
  have : (natStr n).data = Nat.toDigitsCore 10 (n + 1) n [] := rfl
  rw [this] at hc
  exact toDigitsCore_chars (n + 1) n [] (by intro c hc; simp at hc) c hc

theorem toDigitsCore_ne_nil (fuel : Nat) : ∀ n acc, acc ≠ [] →
    Nat.toDigitsCore 10 fuel n acc ≠ [] := by
  induction fuel with
  | zero =>
    intro n acc h
    exact h
  | succ f ih =>
    intro n acc h
    rw [Nat.toDigitsCore]
    by_cases hz : n / 10 = 0
    · simp [hz]
    · simp only [hz, if_false]
      exact ih (n / 10) _ (by simp)

theorem natStr_ne_nil (n : Nat) : (natStr n).data ≠ [] := by
  have heq : (natStr n).data = Nat.toDigitsCore 10 (n + 1) n [] := rfl
  rw [heq, Nat.toDigitsCore]
  by_cases hz : n / 10 = 0
  · simp [hz]
  · simp only [hz, if_false]
    exact toDigitsCore_ne_nil n (n / 10) _ (by simp)

/-- Two-digit zero padding (date-fns `MM`/`dd` tokens, `toISOString` parts). -/
def pad2 (n : Nat) : String := if n < 10 then "0" ++ natStr n else natStr n

/-- `formatDate` from `src/lib/utils.ts`: the date as `YYYY-MM-DD`. -/
def formatDate (d : Nat) : String :=
  natStr (yearOf d) ++ "-" ++ pad2 (monthOf d) ++ "-" ++ pad2 (dayOfMonth d)

/-- JS `String.prototype.split` with a single-character separator. -/
def splitOnChar (sep : Char) : List Char → List (List Char)
  | [] => [[]]
  | c :: rest =>
    if c = sep then [] :: splitOnChar sep rest
    else
      match splitOnChar sep rest with
      | [] => [[c]]
      | l :: ls => (c :: l) :: ls

/-- JS `Number` on a string of decimal digits. -/
def toNatL (l : List Char) : Nat := l.foldl (fun a c => a * 10 + (c.toNat - 48)) 0

/-- `parseLocalTaskDate` from `src/lib/utils.ts`: parse `YYYY-MM-DD` as a
local-midnight date.  A malformed string yields a JS Invalid Date, which no
caller observes; the model clamps that case to day 0. -/
def parseLocalTaskDate (s : String) : Nat :=
  match splitOnChar '-' s.data with
  | [ys, ms, ds] => dayFromCivil (toNatL ys) (toNatL ms) (toNatL ds)
  | _ => 0

/-! ## date-fns `getWeek` (default options: weeks start Sunday, the week
containing January 1 is week 1) -/

/-- date-fns `startOfWeek` with `weekStartsOn = 0` (Sunday), on day numbers. -/
def dfSow (d : Nat) : Nat := d - (d + 4) % 7

/-- date-fns `getWeekYear` with `firstWeekContainsDate = 1`. -/
def getWeekYear (d : Nat) : Nat :=
  let y := yearOf d
  if dfSow (jan1 (y + 1)) ≤ d then y + 1
  else if dfSow (jan1 y) ≤ d then y
  else y - 1

/-- date-fns `getWeek` (the local, Sunday-start week number used by
`getPeriodKey`). -/
def getWeek (d : Nat) : Nat := (dfSow d - dfSow (jan1 (getWeekYear d))) / 7 + 1

/-! ## Data model (`src/types.ts`) -/

inductive Urgency
  | high
  | low
deriving DecidableEq

inductive Importance
  | high
  | low
deriving DecidableEq

inductive TaskStatus
  | todo
  | inProgress
  | done
deriving DecidableEq

inductive Frequency
  | fnone
  | daily
  | weekly
  | monthly
  | yearly
deriving DecidableEq

def urgencyStr : Urgency → String
  | .high => "High"
  | .low => "Low"

def importanceStr : Importance → String
  | .high => "High"
  | .low => "Low"

def statusStr : TaskStatus → String
  | .todo => "To Do"
  | .inProgress => "In Progress"
  | .done => "Done"

def frequencyStr : Frequency → String
  | .fnone => "None"
  | .daily => "Daily"
  | .weekly => "Weekly"
  | .monthly => "Monthly"
  | .yearly => "Yearly"

structure HistoryEntry where
  id : String
  timestamp : Nat
  field : String
  oldValue : String
  newValue : String
  user : String
deriving DecidableEq

structure EmTask where
  id : String
  title : String
  description : String
  urgency : Urgency
  importance : Importance
  status : TaskStatus
  date : String
  frequency : Frequency
  createdAt : Nat
  updatedAt : Nat
  completedAt : Option Nat
  history : List HistoryEntry
  completionHistory : List (String × TaskStatus)
  recurrenceEndedAt : Option Nat
deriving DecidableEq

/-- Lookup in the completion ledger (the JS object `completionHistory`). -/
def lookupLedger (l : List (String × TaskStatus)) (k : String) : Option TaskStatus :=
  match l with
  | [] => none
  | (k', v) :: rest => if k' = k then some v else lookupLedger rest k

/-- JS object update `{...ledger, [k]: v}`: replace the binding of `k` in
place, or append it. -/
def upsertLedger (l : List (String × TaskStatus)) (k : String) (v : TaskStatus) :
    List (String × TaskStatus) :=
  match l with
  | [] => [(k, v)]
  | (k', v') :: rest => if k' = k then (k, v) :: rest else (k', v') :: upsertLedger rest k v

theorem lookupLedger_upsertLedger (l : List (String × TaskStatus)) (k : String) (v : TaskStatus) :
    lookupLedger (upsertLedger l k v) k = some v := by
  induction l with
  | nil => simp [upsertLedger, lookupLedger]
  | cons p rest ih =>
    obtain ⟨k', v'⟩ := p
    by_cases h : k' = k
    · simp [upsertLedger, lookupLedger, h]
    · simp [upsertLedger, lookupLedger, h, ih]

/-! ## Occurrence evaluator (`src/lib/utils.ts`) -/

/-- `getPeriodKey(date, frequency)` from `src/lib/utils.ts`.  The Weekly
branch uses date-fns `getWeek` (the source comment says "ISO week number"
but the call is `getWeek`, not `getISOWeek`); Monthly uses the
date-fns format string `yyyy-MM`. -/
def getPeriodKey (day : Nat) (f : Frequency) : String :=
  match f with
  | .daily => formatDate day
  | .weekly => natStr (yearOf day) ++ "-W" ++ natStr (getWeek day)
  | .monthly => natStr (yearOf day) ++ "-" ++ pad2 (monthOf day)
  | .yearly => natStr (yearOf day)
  | .fnone => ""

/-- `getTaskStatus(task, date)` from `src/lib/utils.ts`.  The source's
`completionHistory?.[key] || TODO` falls back to `TODO` exactly when the key
is absent, because every `TaskStatus` string is truthy. -/
def getTaskStatus (t : EmTask) (day : Nat) : TaskStatus :=
  if t.frequency = Frequency.fnone then t.status
  else (lookupLedger t.completionHistory (getPeriodKey day t.frequency)).getD TaskStatus.todo

/-- `isTaskActiveOnDate(task, date)` from `src/lib/utils.ts`.  The guard
`if (task.recurrenceEndedAt)` is a JS truthiness test: the cutoff runs only
when the field is present AND nonzero — a stored `0` (falsy, producible by
importing a CSV whose `recurrenceEndedAt` cell is `"0"`) skips it. -/
def isTaskActiveOnDate (t : EmTask) (day : Nat) : Bool :=
  if (match t.recurrenceEndedAt with
      | some ts => if ts = 0 then false else decide (dayOfTs ts < day)
      | none => false) then false
  else
    let a := parseLocalTaskDate t.date
    if day < a then false
    else
      match t.frequency with
      | .daily => true
      | .weekly => decide (dayOfWeek day = dayOfWeek a)
      | .monthly => decide (dayOfMonth day = dayOfMonth a)
      | .yearly => decide (dayOfMonth day = dayOfMonth a ∧ monthOf day = monthOf a)
      | .fnone => decide (day = a)


/-! ## Week-number characterisation (claim C1) -/

theorem dfSow_le (x : Nat) : dfSow x ≤ x := by
  unfold dfSow
  omega

theorem dfSow_mono {a b : Nat} (h : a ≤ b) : dfSow a ≤ dfSow b := by
  unfold dfSow
  omega

theorem dfSow_mod (x : Nat) (hx : 6 ≤ x) : (dfSow x + 4) % 7 = 0 := by
  unfold dfSow
  omega

theorem dfSow_idem (x : Nat) (hx : 6 ≤ x) : dfSow (dfSow x) = dfSow x := by
  unfold dfSow
  omega

theorem dfSow_gap (x : Nat) : x - dfSow x ≤ 6 := by
  unfold dfSow
  omega

/-- Modelled from the spec side of the claim: the Sunday-start local week
number that the amended C1 attributes to the code — weeks start on Sunday
and week 1 is the week containing January 1; a date whose Sunday-started
week already contains January 1 of the following calendar year belongs to
week 1 (of that following week-year). -/
def sundayWeekNumber (d : Nat) : Nat :=
  if dfSow (jan1 (yearOf d + 1)) ≤ d then 1
  else (dfSow d - dfSow (jan1 (yearOf d))) / 7 + 1

/-- Modelled from the spec: the ISO-8601 week number (weeks start Monday;
week 1 is the week containing the year's first Thursday, equivalently the
week containing January 4).  `isoSow` is the Monday of `d`'s ISO week. -/
def isoSow (d : Nat) : Nat := d - (d + 3) % 7

/-- Modelled from the spec: ISO-8601 week number of a day (see `isoSow`). -/
def isoWeekNumber (d : Nat) : Nat :=
  (isoSow d - isoSow (jan1 (yearOf (isoSow d + 3)) + 3)) / 7 + 1

theorem jan1_1971 : jan1 1971 = 365 := by decide

theorem jan1_1972 : jan1 1972 = 730 := by decide

/-- date-fns `getWeek` coincides with the independently-stated Sunday-start
week number, for every day from 1972-01-01 on. -/
theorem getWeek_eq_sundayWeekNumber (d : Nat) (hd : 731 ≤ d) :
    getWeek d = sundayWeekNumber d := by
  obtain ⟨hlo, hhi⟩ := jan1_yearOf_le d
  have hy : 1972 ≤ yearOf d := by
    by_contra h
    have h1 : yearOf d + 1 ≤ 1972 := by omega
    have h2 := jan1_mono h1
    rw [jan1_1972] at h2
    omega
  have hB : 365 ≤ jan1 (yearOf d) := by
    have := jan1_mono (show 1971 ≤ yearOf d by omega)
    rw [jan1_1971] at this
    omega
  have hA : 365 ≤ jan1 (yearOf d + 1) := by
    have := jan1_mono (show 1971 ≤ yearOf d + 1 by omega)
    rw [jan1_1971] at this
    omega
  by_cases hnext : dfSow (jan1 (yearOf d + 1)) ≤ d
  · have hwy : getWeekYear d = yearOf d + 1 := by
      unfold getWeekYear
      simp only [hnext, if_true]
    have hsow : dfSow d = dfSow (jan1 (yearOf d + 1)) := by
      have h1 : dfSow (jan1 (yearOf d + 1)) ≤ dfSow d := by
        have := dfSow_mono hnext
        rw [dfSow_idem _ (by omega)] at this
        exact this
      have h2 : dfSow d ≤ d := dfSow_le d
      have h3 := dfSow_gap (jan1 (yearOf d + 1))
      have h4 := dfSow_mod d (by omega)
      have h5 := dfSow_mod (jan1 (yearOf d + 1)) (by omega)
      omega
    unfold getWeek sundayWeekNumber
    rw [hwy, hsow]
    simp [hnext]
  · have hthis : dfSow (jan1 (yearOf d)) ≤ d := by
      have := dfSow_le (jan1 (yearOf d))
      omega
    have hwy : getWeekYear d = yearOf d := by
      unfold getWeekYear
      simp only [hnext, if_false, hthis, if_true]
    unfold getWeek sundayWeekNumber
    rw [hwy]
    simp [hnext]

/-- C1 counterexample: on 2024-12-29 the weekly period key is `"2024-W1"`
(date-fns local week numbering), while the ISO-8601 week number of that day
is 52, so the key is not `"{year}-W{isoWeek}"`. -/
theorem c1_counterexample :
    isoWeekNumber (dayFromCivil 2024 12 29) = 52 ∧
    getPeriodKey (dayFromCivil 2024 12 29) Frequency.weekly = "2024-W1" ∧
    getPeriodKey (dayFromCivil 2024 12 29) Frequency.weekly ≠
      natStr (yearOf (dayFromCivil 2024 12 29)) ++ "-W" ++
        natStr (isoWeekNumber (dayFromCivil 2024 12 29)) := by
  refine ⟨by decide, by decide, by decide⟩

/-- C1 (amended): for every date from 1972 on, `periodKey(d, Weekly)` is
`"{year}-W{w}"` where `year` is `d`'s calendar year and `w` is the
Sunday-start local week number with week 1 the week containing January 1
(the date-fns `getWeek` default), not the ISO-8601 week number; the
spec's concrete example `periodKey(2024-01-10, Weekly) = "2024-W2"` holds. -/
theorem c1_periodKey_weekly (d : Nat) (hd : 731 ≤ d) :
    getPeriodKey d Frequency.weekly
      = natStr (yearOf d) ++ "-W" ++ natStr (sundayWeekNumber d) ∧
    getPeriodKey (dayFromCivil 2024 1 10) Frequency.weekly = "2024-W2" := by
  constructor
  · show natStr (yearOf d) ++ "-W" ++ natStr (getWeek d)
        = natStr (yearOf d) ++ "-W" ++ natStr (sundayWeekNumber d)
    rw [getWeek_eq_sundayWeekNumber d hd]
  · decide

/-- Witness for C1 (amended) at 2024-01-10. -/
theorem c1_witness :
    getPeriodKey (dayFromCivil 2024 1 10) Frequency.weekly
      = natStr (yearOf (dayFromCivil 2024 1 10)) ++ "-W" ++
        natStr (sundayWeekNumber (dayFromCivil 2024 1 10)) :=
  (c1_periodKey_weekly (dayFromCivil 2024 1 10) (by decide)).1

/-! ## Claims C5, C6, C10 — occurrence evaluator -/

/-- A Monthly task anchored on 2024-01-31 (day-of-month 31), used for the
no-clamping edge case of C5. -/
def task31 : EmTask :=
  { id := "m31", title := "Monthly 31", description := "",
    urgency := Urgency.low, importance := Importance.low,
    status := TaskStatus.todo, date := "2024-01-31",
    frequency := Frequency.monthly, createdAt := 0, updatedAt := 0,
    completedAt := none, history := [], completionHistory := [],
    recurrenceEndedAt := none }

/-- C5: for a Monthly task with no series end, on any date on/after the
anchor, activity holds exactly when the day-of-month matches the anchor's;
in particular the day-31 task `task31` is active on no day of April 2024
(a 30-day month) — no clamping to day 30. -/
theorem c5_monthly_day_of_month (t : EmTask) (d a : Nat)
    (hf : t.frequency = Frequency.monthly)
    (hr : t.recurrenceEndedAt = none)
    (ha : parseLocalTaskDate t.date = a)
    (hda : a ≤ d) :
    (isTaskActiveOnDate t d = true ↔ dayOfMonth d = dayOfMonth a) ∧
    (∀ i, i < 30 → isTaskActiveOnDate task31 (dayFromCivil 2024 4 1 + i) = false) := by
  constructor
  · unfold isTaskActiveOnDate
    rw [hr, hf, ha]
    simp only [Bool.false_eq_true, if_false]
    rw [if_neg (by omega)]
    simp
  · decide

/-- Witness for C5 at the concrete Monthly task `task31` and 2024-03-31. -/
theorem c5_witness :
    isTaskActiveOnDate task31 (dayFromCivil 2024 3 31) = true ↔
      dayOfMonth (dayFromCivil 2024 3 31) = dayOfMonth (parseLocalTaskDate task31.date) :=
  (c5_monthly_day_of_month task31 (dayFromCivil 2024 3 31)
    (parseLocalTaskDate task31.date) rfl rfl rfl (by decide)).1

/-- C6: `getTaskStatus` returns the stored status verbatim for
frequency None, irrespective of the date; for a recurring task it returns
the completion-ledger entry under the period key when present, and
`To Do` when absent. -/
theorem c6_status_resolution (t : EmTask) (d : Nat) :
    (t.frequency = Frequency.fnone → getTaskStatus t d = t.status) ∧
    (t.frequency ≠ Frequency.fnone →
      (lookupLedger t.completionHistory (getPeriodKey d t.frequency) = none →
        getTaskStatus t d = TaskStatus.todo) ∧
      (∀ v, lookupLedger t.completionHistory (getPeriodKey d t.frequency) = some v →
        getTaskStatus t d = v)) := by
  refine ⟨fun h => by simp [getTaskStatus, h], fun h => ⟨fun hl => ?_, fun v hl => ?_⟩⟩
  · simp [getTaskStatus, h, hl]
  · simp [getTaskStatus, h, hl]

/-- A recurring weekly task with an empty ledger, anchored 2024-01-03. -/
def sampleWeekly : EmTask :=
  { id := "w1", title := "Weekly", description := "",
    urgency := Urgency.low, importance := Importance.low,
    status := TaskStatus.done, date := "2024-01-03",
    frequency := Frequency.weekly, createdAt := 0, updatedAt := 0,
    completedAt := none, history := [], completionHistory := [],
    recurrenceEndedAt := none }

/-- Witness for C6: the sample weekly task with an empty ledger resolves to
`To Do` on 2024-01-10. -/
theorem c6_witness : getTaskStatus sampleWeekly (dayFromCivil 2024 1 10) = TaskStatus.todo :=
  ((c6_status_resolution sampleWeekly (dayFromCivil 2024 1 10)).2 (by decide)).1 (by decide)

/-- A one-off task with `recurrenceEndedAt` set to `0` — present but falsy
in JS, so the source's `if (task.recurrenceEndedAt)` guard skips the
cutoff.  Its "end day" 1970-01-01 precedes the anchor 2024-01-03. -/
def zeroEndedOneOff : EmTask :=
  { id := "n0", title := "Zero-ended one-off", description := "",
    urgency := Urgency.low, importance := Importance.low,
    status := TaskStatus.todo, date := "2024-01-03",
    frequency := Frequency.fnone, createdAt := 0, updatedAt := 0,
    completedAt := none, history := [], completionHistory := [],
    recurrenceEndedAt := some 0 }

/-- C10 counterexample: with `recurrenceEndedAt` set to the falsy value `0`
the code skips the cutoff entirely — the one-off task is active on its
anchor date even though that date lies strictly after the end instant's
calendar day, and even though the end day precedes the anchor, refuting
"active on no date at all" for every set value. -/
theorem c10_counterexample :
    zeroEndedOneOff.recurrenceEndedAt = some 0 ∧
    dayOfTs 0 < parseLocalTaskDate zeroEndedOneOff.date ∧
    isTaskActiveOnDate zeroEndedOneOff (parseLocalTaskDate zeroEndedOneOff.date) = true := by
  refine ⟨rfl, by decide, by decide⟩

/-- C10 (amended): the `recurrenceEndedAt` cutoff applies to frequency None
as well, provided the stored instant is nonzero (the source's
`if (task.recurrenceEndedAt)` is a JS truthiness test, so `0` is skipped):
with a nonzero `recurrenceEndedAt`, no date strictly after its calendar day
is active, and if that calendar day precedes the anchor date the task is
active on no date at all. -/
theorem c10_cutoff_applies_to_none (t : EmTask) (e a : Nat)
    (hf : t.frequency = Frequency.fnone)
    (hr : t.recurrenceEndedAt = some e)
    (hnz : e ≠ 0)
    (ha : parseLocalTaskDate t.date = a) :
    (∀ d, dayOfTs e < d → isTaskActiveOnDate t d = false) ∧
    (dayOfTs e < a → ∀ d, isTaskActiveOnDate t d = false) := by
  constructor
  · intro d hd
    unfold isTaskActiveOnDate
    rw [hr]
    simp [hnz, hd]
  · intro hlt d
    by_cases hcut : dayOfTs e < d
    · unfold isTaskActiveOnDate
      rw [hr]
      simp [hnz, hcut]
    · unfold isTaskActiveOnDate
      rw [hr, hf, ha]
      simp only [hnz, if_false, decide_eq_true_eq, hcut]
      rw [if_pos (by omega)]

/-- A one-off task whose (nonzero) series-end day 1970-01-05 precedes its
anchor 2024-01-03. -/
def endedOneOff : EmTask :=
  { id := "n1", title := "One-off", description := "",
    urgency := Urgency.low, importance := Importance.low,
    status := TaskStatus.todo, date := "2024-01-03",
    frequency := Frequency.fnone, createdAt := 0, updatedAt := 0,
    completedAt := none, history := [], completionHistory := [],
    recurrenceEndedAt := some (4 * 86400000) }

/-- Witness for C10 (amended): the ended one-off task is inactive on its
own anchor date. -/
theorem c10_witness : isTaskActiveOnDate endedOneOff (dayFromCivil 2024 1 3) = false :=
  (c10_cutoff_applies_to_none endedOneOff (4 * 86400000)
    (parseLocalTaskDate endedOneOff.date) rfl rfl (by decide) rfl).2
    (by decide) (dayFromCivil 2024 1 3)

/-! ## Task mutation and history engine (`src/App.tsx`, `TaskModal.tsx`) -/

/-- A partial task, as the duck-typed `Partial<Task>` patch handed to
`handleSaveTask`.  An outer `none` models an absent key; for the two
fields that can themselves hold `undefined` (`completedAt`,
`recurrenceEndedAt`) a present key carries an inner `Option`, because a
key present with value `undefined` still overwrites under JS spread. -/
structure TaskPatch where
  id : Option String := none
  title : Option String := none
  description : Option String := none
  urgency : Option Urgency := none
  importance : Option Importance := none
  status : Option TaskStatus := none
  date : Option String := none
  frequency : Option Frequency := none
  createdAt : Option Nat := none
  updatedAt : Option Nat := none
  completedAt : Option (Option Nat) := none
  history : Option (List HistoryEntry) := none
  completionHistory : Option (List (String × TaskStatus)) := none
  recurrenceEndedAt : Option (Option Nat) := none
deriving DecidableEq

/-- JS `String(value)` on a possibly-undefined number. -/
def strOptNat : Option Nat → String
  | none => "undefined"
  | some n => natStr n

/-- The `(field, oldValue, newValue)` triples recorded by the change
detection of `handleSaveTask`: every patch key except `history` and
`completionHistory` whose defined value differs from the stored one,
with the field name capitalised and both values stringified. -/
def changeTriples (t : EmTask) (p : TaskPatch) : List (String × String × String) :=
  (match p.id with
   | some v => if v ≠ t.id then [("Id", t.id, v)] else []
   | none => []) ++
  (match p.title with
   | some v => if v ≠ t.title then [("Title", t.title, v)] else []
   | none => []) ++
  (match p.description with
   | some v => if v ≠ t.description then [("Description", t.description, v)] else []
   | none => []) ++
  (match p.urgency with
   | some v => if v ≠ t.urgency then [("Urgency", urgencyStr t.urgency, urgencyStr v)] else []
   | none => []) ++
  (match p.importance with
   | some v => if v ≠ t.importance then
       [("Importance", importanceStr t.importance, importanceStr v)] else []
   | none => []) ++
  (match p.status with
   | some v => if v ≠ t.status then [("Status", statusStr t.status, statusStr v)] else []
   | none => []) ++
  (match p.date with
   | some v => if v ≠ t.date then [("Date", t.date, v)] else []
   | none => []) ++
  (match p.frequency with
   | some v => if v ≠ t.frequency then
       [("Frequency", frequencyStr t.frequency, frequencyStr v)] else []
   | none => []) ++
  (match p.createdAt with
   | some v => if v ≠ t.createdAt then [("CreatedAt", natStr t.createdAt, natStr v)] else []
   | none => []) ++
  (match p.updatedAt with
   | some v => if v ≠ t.updatedAt then [("UpdatedAt", natStr t.updatedAt, natStr v)] else []
   | none => []) ++
  (match p.completedAt with
   | some (some v) => if some v ≠ t.completedAt then
       [("CompletedAt", strOptNat t.completedAt, natStr v)] else []
   | _ => []) ++
  (match p.recurrenceEndedAt with
   | some (some v) => if some v ≠ t.recurrenceEndedAt then
       [("RecurrenceEndedAt", strOptNat t.recurrenceEndedAt, natStr v)] else []
   | _ => [])

/-- The history entries appended by one save; entry ids come from the
supplied generator (the source calls the random `generateId` per entry). -/
def changesOf (t : EmTask) (p : TaskPatch) (now : Nat) (genId : Nat → String) :
    List HistoryEntry :=
  (changeTriples t p).enum.map fun e =>
    { id := genId e.1, timestamp := now, field := e.2.1,
      oldValue := e.2.2.1, newValue := e.2.2.2, user := "User" }

/-- JS object spread `{...t, ...p}` on the task shape. -/
def applyPatch (t : EmTask) (p : TaskPatch) : EmTask :=
  { id := p.id.getD t.id,
    title := p.title.getD t.title,
    description := p.description.getD t.description,
    urgency := p.urgency.getD t.urgency,
    importance := p.importance.getD t.importance,
    status := p.status.getD t.status,
    date := p.date.getD t.date,
    frequency := p.frequency.getD t.frequency,
    createdAt := p.createdAt.getD t.createdAt,
    updatedAt := p.updatedAt.getD t.updatedAt,
    completedAt := match p.completedAt with
      | some v => v
      | none => t.completedAt,
    history := p.history.getD t.history,
    completionHistory := p.completionHistory.getD t.completionHistory,
    recurrenceEndedAt := match p.recurrenceEndedAt with
      | some v => v
      | none => t.recurrenceEndedAt }

/-- The `completedAt` recomputation of `handleSaveTask` (single-task state
machine, only when the frequency resolves to None). -/
def newCompletedAt (t : EmTask) (p : TaskPatch) (now : Nat) : Option Nat :=
  if p.frequency = some Frequency.fnone ∨ (p.frequency = none ∧ t.frequency = Frequency.fnone) then
    if p.status = some TaskStatus.done ∧ t.status ≠ TaskStatus.done then some now
    else if p.status ≠ none ∧ p.status ≠ some TaskStatus.done then none
    else t.completedAt
  else t.completedAt

/-- The update branch of `handleSaveTask` (`src/App.tsx`): spread the patch
over the stored task, then override `updatedAt`, `completedAt` and
`history` (prior history plus the detected changes). -/
def applySaveExisting (t : EmTask) (p : TaskPatch) (now : Nat) (genId : Nat → String) : EmTask :=
  { applyPatch t p with
      updatedAt := now,
      completedAt := newCompletedAt t p now,
      history := t.history ++ changesOf t p now genId }

/-- The form state the modal holds for an existing task: the task itself
with `status` resolved for the contextual date (`TaskModal.tsx`,
`useEffect`). -/
def formDataOf (t : EmTask) (ctx : Nat) : TaskPatch :=
  { id := some t.id, title := some t.title, description := some t.description,
    urgency := some t.urgency, importance := some t.importance,
    status := some (getTaskStatus t ctx), date := some t.date,
    frequency := some t.frequency, createdAt := some t.createdAt,
    updatedAt := some t.updatedAt, completedAt := some t.completedAt,
    history := some t.history, completionHistory := some t.completionHistory,
    recurrenceEndedAt := some t.recurrenceEndedAt }

/-- `handleCompleteSeries` (`TaskModal.tsx`): stamp `recurrenceEndedAt`,
force status `Done`, and for a recurring frequency write `Done` into the
ledger under the contextual period key. -/
def endSeriesPatch (form : TaskPatch) (now ctx : Nat) : TaskPatch :=
  { form with
      recurrenceEndedAt := some (some now),
      status := some TaskStatus.done,
      completionHistory :=
        match form.frequency with
        | some f =>
          if f ≠ Frequency.fnone then
            some (upsertLedger (form.completionHistory.getD []) (getPeriodKey ctx f)
              TaskStatus.done)
          else form.completionHistory
        | none => form.completionHistory }

/-- The end-of-series flow: build the modal form, apply
`handleCompleteSeries`, and save through `handleSaveTask`. -/
def endSeries (t : EmTask) (ctx now : Nat) (genId : Nat → String) : EmTask :=
  applySaveExisting t (endSeriesPatch (formDataOf t ctx) now ctx) now genId

/-- `handleResumeSeries` (`TaskModal.tsx`) composed with the save: clear
`recurrenceEndedAt`, reset status to `To Do`. -/
def resumeSeries (t : EmTask) (ctx now : Nat) (genId : Nat → String) : EmTask :=
  applySaveExisting t
    { formDataOf t ctx with recurrenceEndedAt := some none, status := some TaskStatus.todo }
    now genId

/-- The per-task update of `handleDragEnd` (`src/App.tsx`): relocate the
matching task to the target quadrant, appending one synthetic
"Matrix Position" history entry, unless both values are unchanged. -/
def relocateTask (tid : String) (u : Urgency) (imp : Importance) (now : Nat) (eid : String)
    (t : EmTask) : EmTask :=
  if t.id = tid then
    if t.urgency = u ∧ t.importance = imp then t
    else
      { t with
          urgency := u,
          importance := imp,
          history := t.history ++
            [{ id := eid, timestamp := now, field := "Matrix Position",
               oldValue := urgencyStr t.urgency ++ " / " ++ importanceStr t.importance,
               newValue := urgencyStr u ++ " / " ++ importanceStr imp, user := "User" }],
          updatedAt := now }
  else t

/-- `handleDragEnd` over the whole collection. -/
def handleDragEnd (ts : List EmTask) (tid : String) (u : Urgency) (imp : Importance)
    (now : Nat) (eid : String) : List EmTask :=
  ts.map (relocateTask tid u imp now eid)

/-! ## Claims C2, C3, C8, C9 — mutation engine -/

/-- A Daily task anchored 2024-01-01 with an open series. -/
def dailyTask : EmTask :=
  { id := "d1", title := "Daily", description := "",
    urgency := Urgency.low, importance := Importance.low,
    status := TaskStatus.todo, date := "2024-01-01",
    frequency := Frequency.daily, createdAt := 0, updatedAt := 0,
    completedAt := none, history := [], completionHistory := [],
    recurrenceEndedAt := none }

/-- Contextual date 2024-01-05 for the C2 counterexample. -/
def c2ctx : Nat := dayFromCivil 2024 1 5

/-- Noon of 2024-01-06 as the ending instant for the C2 counterexample. -/
def c2now : Nat := dayFromCivil 2024 1 6 * 86400000 + 43200000

/-- C2 counterexample: ending the Daily series at an instant whose calendar
day (2024-01-06) is after the contextual date D = 2024-01-05 leaves
`isActiveOn(task, D+1)` true — D+1 is the ending instant's own day, which
the `recurrenceEndedAt` cutoff does not exclude. -/
theorem c2_counterexample :
    isTaskActiveOnDate (endSeries dailyTask c2ctx c2now natStr) (c2ctx + 1) = true := by
  decide

/-- C2 (amended): ending a recurring series at instant `now` with
contextual date `ctx` stamps `recurrenceEndedAt = now`, forces the overall
status to `Done`, and records `Done` in the ledger under
`periodKey(ctx, frequency)`; and `isActiveOn(task, ctx+1)` is false
whenever the ending instant is nonzero (the `recurrenceEndedAt` guard is a
JS truthiness test, and `Date.now() = 0` is an unrealizable wall-clock
instant) and `ctx + 1` lies strictly after `now`'s calendar day (in
particular whenever the contextual date is on/after the day the series is
ended). -/
theorem c2_endSeries (t : EmTask) (ctx now : Nat) (genId : Nat → String)
    (hf : t.frequency ≠ Frequency.fnone) :
    (endSeries t ctx now genId).recurrenceEndedAt = some now ∧
    (endSeries t ctx now genId).status = TaskStatus.done ∧
    lookupLedger (endSeries t ctx now genId).completionHistory (getPeriodKey ctx t.frequency)
      = some TaskStatus.done ∧
    (now ≠ 0 → dayOfTs now < ctx + 1 →
      isTaskActiveOnDate (endSeries t ctx now genId) (ctx + 1) = false) := by
  refine ⟨rfl, rfl, ?_, ?_⟩
  · show lookupLedger
      ((endSeriesPatch (formDataOf t ctx) now ctx).completionHistory.getD t.completionHistory)
      (getPeriodKey ctx t.frequency) = some TaskStatus.done
    unfold endSeriesPatch formDataOf
    simp only [hf, ne_eq, not_false_iff, if_true, Option.getD_some]
    exact lookupLedger_upsertLedger t.completionHistory _ _
  · intro hnz hlt
    unfold isTaskActiveOnDate
    have hre : (endSeries t ctx now genId).recurrenceEndedAt = some now := rfl
    rw [hre]
    simp [hnz, hlt]

/-- Witness for C2 (amended): the Daily task ended at noon of the
contextual date 2024-01-05 itself. -/
theorem c2_witness :
    (endSeries dailyTask c2ctx (c2ctx * 86400000 + 43200000) natStr).status = TaskStatus.done ∧
    isTaskActiveOnDate (endSeries dailyTask c2ctx (c2ctx * 86400000 + 43200000) natStr)
      (c2ctx + 1) = false := by
  have h := c2_endSeries dailyTask c2ctx (c2ctx * 86400000 + 43200000) natStr (by decide)
  exact ⟨h.2.1, h.2.2.2 (by decide) (by decide)⟩

/-- A Weekly task whose series has been ended (`recurrenceEndedAt` set). -/
def endedWeekly : EmTask :=
  { id := "t1", title := "Old", description := "",
    urgency := Urgency.low, importance := Importance.low,
    status := TaskStatus.done, date := "2024-01-03",
    frequency := Frequency.weekly, createdAt := 0, updatedAt := 0,
    completedAt := none, history := [], completionHistory := [],
    recurrenceEndedAt := some 1700000000000 }

/-- A patch changing only the title. -/
def titleOnlyPatch : TaskPatch := { title := some "New" }

/-- C3 evidence (code bug): the mutation engine has no guard on
`recurrenceEndedAt` — a save patch changes an ended task's title (and
appends history), and a drag relocates an ended task; neither rejects nor
no-ops, contradicting the specified engine-level precondition. -/
theorem c3_ended_series_mutated :
    endedWeekly.recurrenceEndedAt ≠ none ∧
    (applySaveExisting endedWeekly titleOnlyPatch 77 natStr).title = "New" ∧
    applySaveExisting endedWeekly titleOnlyPatch 77 natStr ≠ endedWeekly ∧
    (relocateTask "t1" Urgency.high Importance.high 77 "e1" endedWeekly).urgency
      = Urgency.high ∧
    relocateTask "t1" Urgency.high Importance.high 77 "e1" endedWeekly ≠ endedWeekly := by
  decide

/-- C8: drag relocation is the identity on non-matching ids and on an
unchanged urgency/importance pair; otherwise it replaces exactly the two
quadrant fields, appends exactly one "Matrix Position" history entry with
`"{urgency} / {importance}"`-formatted old/new values, refreshes
`updatedAt`, and leaves every other field untouched; the collection-level
operation is the pointwise map of this per-task update. -/
theorem c8_relocate (tid : String) (u : Urgency) (imp : Importance) (now : Nat) (eid : String)
    (t : EmTask) :
    (t.id ≠ tid → relocateTask tid u imp now eid t = t) ∧
    (t.urgency = u ∧ t.importance = imp → relocateTask tid u imp now eid t = t) ∧
    (t.id = tid → ¬(t.urgency = u ∧ t.importance = imp) →
      (relocateTask tid u imp now eid t).urgency = u ∧
      (relocateTask tid u imp now eid t).importance = imp ∧
      (relocateTask tid u imp now eid t).updatedAt = now ∧
      (relocateTask tid u imp now eid t).history = t.history ++
        [{ id := eid, timestamp := now, field := "Matrix Position",
           oldValue := urgencyStr t.urgency ++ " / " ++ importanceStr t.importance,
           newValue := urgencyStr u ++ " / " ++ importanceStr imp, user := "User" }] ∧
      (relocateTask tid u imp now eid t).id = t.id ∧
      (relocateTask tid u imp now eid t).title = t.title ∧
      (relocateTask tid u imp now eid t).description = t.description ∧
      (relocateTask tid u imp now eid t).status = t.status ∧
      (relocateTask tid u imp now eid t).date = t.date ∧
      (relocateTask tid u imp now eid t).frequency = t.frequency ∧
      (relocateTask tid u imp now eid t).createdAt = t.createdAt ∧
      (relocateTask tid u imp now eid t).completedAt = t.completedAt ∧
      (relocateTask tid u imp now eid t).completionHistory = t.completionHistory ∧
      (relocateTask tid u imp now eid t).recurrenceEndedAt = t.recurrenceEndedAt) ∧
    (∀ ts : List EmTask, handleDragEnd ts tid u imp now eid
      = List.map (relocateTask tid u imp now eid) ts) := by
  refine ⟨fun h => ?_, fun h => ?_, fun hid hpair => ?_, fun ts => rfl⟩
  · unfold relocateTask
    rw [if_neg h]
  · unfold relocateTask
    by_cases hid : t.id = tid
    · rw [if_pos hid, if_pos h]
    · rw [if_neg hid]
  · unfold relocateTask
    rw [if_pos hid, if_neg hpair]
    refine ⟨rfl, rfl, rfl, rfl, rfl, rfl, rfl, rfl, rfl, rfl, rfl, rfl, rfl, rfl⟩

/-- Witness for C8: moving `dailyTask` (at Low/Low) to High/High. -/
theorem c8_witness :
    (relocateTask "d1" Urgency.high Importance.high 5 "e9" dailyTask).urgency = Urgency.high ∧
    (relocateTask "d1" Urgency.high Importance.high 5 "e9" dailyTask).history =
      dailyTask.history ++
        [{ id := "e9", timestamp := 5, field := "Matrix Position",
           oldValue := "Low / Low", newValue := "High / High", user := "User" }] := by
  have h := (c8_relocate "d1" Urgency.high Importance.high 5 "e9" dailyTask).2.2.1
    rfl (by decide)
  exact ⟨h.1, h.2.2.2.1⟩

/-- C9: the history log is append-only across every mutation operation —
save of an existing task, drag relocation, series end and series resume
all produce a task whose history extends the prior history list, with the
existing entries unmodified. -/
theorem c9_history_append_only :
    (∀ (t : EmTask) (p : TaskPatch) (now : Nat) (genId : Nat → String),
      ∃ l, (applySaveExisting t p now genId).history = t.history ++ l) ∧
    (∀ (tid : String) (u : Urgency) (imp : Importance) (now : Nat) (eid : String) (t : EmTask),
      ∃ l, (relocateTask tid u imp now eid t).history = t.history ++ l) ∧
    (∀ (t : EmTask) (ctx now : Nat) (genId : Nat → String),
      ∃ l, (endSeries t ctx now genId).history = t.history ++ l) ∧
    (∀ (t : EmTask) (ctx now : Nat) (genId : Nat → String),
      ∃ l, (resumeSeries t ctx now genId).history = t.history ++ l) := by
  refine ⟨fun t p now genId => ⟨changesOf t p now genId, rfl⟩, ?_, ?_, ?_⟩
  · intro tid u imp now eid t
    unfold relocateTask
    by_cases hid : t.id = tid
    · by_cases hpair : t.urgency = u ∧ t.importance = imp
      · rw [if_pos hid, if_pos hpair]
        exact ⟨[], by simp⟩
      · rw [if_pos hid, if_neg hpair]
        exact ⟨_, rfl⟩
    · rw [if_neg hid]
      exact ⟨[], by simp⟩
  · intro t ctx now genId
    exact ⟨_, rfl⟩
  · intro t ctx now genId
    exact ⟨_, rfl⟩

/-! ## View-interval filter (claim C7) -/

inductive ViewMode
  | day
  | week
  | month
  | year
deriving DecidableEq

/-- The frequency/granularity visibility hierarchy of `filteredTasks`
(`src/App.tsx`): Daily only in Day view, Weekly not in Month/Year,
Monthly not in Year. -/
def hierarchyAllows (f : Frequency) (v : ViewMode) : Bool :=
  if f = Frequency.daily ∧ v ≠ ViewMode.day then false
  else if f = Frequency.weekly ∧ (v = ViewMode.month ∨ v = ViewMode.year) then false
  else if f = Frequency.monthly ∧ v = ViewMode.year then false
  else true

/-- Last day of year `Y` (the day-number of `endOfYear`). -/
def lastDayOfYear (y : Nat) : Nat := jan1 y + daysInYear y - 1

/-- The Year-view fast pre-filter of `filteredTasks` (`src/App.tsx`): the
task's parsed anchor date is on/before the end of the viewed year. -/
def yearFastPre (t : EmTask) (y : Nat) : Bool :=
  decide (parseLocalTaskDate t.date ≤ lastDayOfYear y)

/-- The definitive per-day test used for shorter granularities
(`eachDayOfInterval` + `days.some(day => isTaskActiveOnDate(task, day))`),
over `n` days starting at day `s`. -/
def anyActiveIn (t : EmTask) (s : Nat) : Nat → Bool
  | 0 => false
  | n + 1 => isTaskActiveOnDate t s || anyActiveIn t (s + 1) n

theorem anyActiveIn_iff (t : EmTask) : ∀ n s,
    anyActiveIn t s n = true ↔ ∃ i, i < n ∧ isTaskActiveOnDate t (s + i) = true := by
  intro n
  induction n with
  | zero =>
    intro s
    simp [anyActiveIn]
  | succ k ih =>
    intro s
    rw [anyActiveIn, Bool.or_eq_true, ih (s + 1)]
    constructor
    · rintro (h | ⟨i, hi, h⟩)
      · refine ⟨0, by omega, ?_⟩
        simpa using h
      · refine ⟨i + 1, by omega, ?_⟩
        have h9 : s + 1 + i = s + (i + 1) := by omega
        rw [h9] at h
        exact h
    · rintro ⟨i, hi, h⟩
      match i with
      | 0 =>
        left
        simpa using h
      | j + 1 =>
        right
        refine ⟨j, by omega, ?_⟩
        have h9 : s + (j + 1) = s + 1 + j := by omega
        rw [h9] at h
        exact h

/-- An occurrence never precedes the parsed anchor date. -/
theorem isActive_anchor_le (t : EmTask) (day : Nat)
    (h : isTaskActiveOnDate t day = true) : parseLocalTaskDate t.date ≤ day := by
  unfold isTaskActiveOnDate at h
  split at h
  · exact absurd h (by simp)
  · by_cases hlt : day < parseLocalTaskDate t.date
    · rw [if_pos hlt] at h
      exact absurd h (by simp)
    · omega

/-- A Yearly task anchored 2024-02-29 with an open series (C7
counterexample, leap-day anchor). -/
def feb29Yearly : EmTask :=
  { id := "y1", title := "Leap day", description := "",
    urgency := Urgency.low, importance := Importance.low,
    status := TaskStatus.todo, date := "2024-02-29",
    frequency := Frequency.yearly, createdAt := 0, updatedAt := 0,
    completedAt := none, history := [], completionHistory := [],
    recurrenceEndedAt := none }

/-- A Yearly task anchored 2020-03-01 whose series ended on 2021-06-01
(C7 counterexample, ended series ignored by the pre-filter). -/
def endedYearly : EmTask :=
  { id := "y2", title := "Ended yearly", description := "",
    urgency := Urgency.low, importance := Importance.low,
    status := TaskStatus.done, date := "2020-03-01",
    frequency := Frequency.yearly, createdAt := 0, updatedAt := 0,
    completedAt := none, history := [], completionHistory := [],
    recurrenceEndedAt := some (dayFromCivil 2021 6 1 * 86400000) }

set_option maxRecDepth 4000 in
/-- C7 counterexample: for the 2025 Year view, both the leap-day-anchored
open series and the long-ended series pass the fast pre-filter
(`anchor <= end`), yet neither is active on any day of 2025 — the
pre-filter is not equivalent to the definitive per-day test. -/
theorem c7_counterexample :
    (yearFastPre feb29Yearly 2025 = true ∧
     anyActiveIn feb29Yearly (jan1 2025) (daysInYear 2025) = false) ∧
    (yearFastPre endedYearly 2025 = true ∧
     anyActiveIn endedYearly (jan1 2025) (daysInYear 2025) = false) := by
  decide

/-- C7 (amended): over recurring frequencies the Year-granularity ceiling
admits only Yearly; and for a Yearly task with no series end whose
anchor's month/day combination exists in the viewed year `Y`
(`dayOfMonth ≤ monthLen Y month` — always true except a Feb-29 anchor
viewed in a non-leap year), the fast pre-filter `anchor ≤ end` is
equivalent to the definitive test that some day of the year interval is
active. -/
theorem c7_year_fast_filter_equiv (t : EmTask) (yv a : Nat)
    (hf : t.frequency = Frequency.yearly)
    (hr : t.recurrenceEndedAt = none)
    (ha : parseLocalTaskDate t.date = a)
    (hY : 1970 ≤ yv)
    (hvalid : dayOfMonth a ≤ monthLen yv (monthOf a)) :
    (∀ f, f ≠ Frequency.fnone → hierarchyAllows f ViewMode.year = true → f = Frequency.yearly) ∧
    (yearFastPre t yv = true ↔ anyActiveIn t (jan1 yv) (daysInYear yv) = true) := by
  constructor
  · intro f hn hall
    cases f
    · exact absurd rfl hn
    · simp [hierarchyAllows] at hall
    · simp [hierarchyAllows] at hall
    · simp [hierarchyAllows] at hall
    · rfl
  constructor
  · intro hpre
    rw [yearFastPre, decide_eq_true_eq, ha] at hpre
    rw [anyActiveIn_iff]
    obtain ⟨hya, hma1, hma2, hda1, hda2, haeq⟩ := civilOfDay_spec a
    have hdy := daysInYear_pos yv
    by_cases hcase : jan1 yv ≤ a
    · -- the anchor itself lies in the viewed year: it is an occurrence
      refine ⟨a - jan1 yv, by unfold lastDayOfYear at hpre; omega, ?_⟩
      have h9 : jan1 yv + (a - jan1 yv) = a := by omega
      rw [h9]
      unfold isTaskActiveOnDate
      rw [hr, hf, ha]
      simp
    · -- the anchor is older: the same month/day inside the viewed year
      have hd2 : 1 ≤ dayOfMonth a := hda1
      have hrt := civilOfDay_dayFromCivil yv (monthOf a) (dayOfMonth a) hY hma1 hma2 hda1 hvalid
      have hmono := monthPre_add_len_le yv (monthOf a) hma1 hma2
      have hin : monthPre yv (monthOf a) + (dayOfMonth a - 1) < daysInYear yv := by
        omega
      refine ⟨monthPre yv (monthOf a) + (dayOfMonth a - 1), hin, ?_⟩
      have h9 : jan1 yv + (monthPre yv (monthOf a) + (dayOfMonth a - 1))
          = dayFromCivil yv (monthOf a) (dayOfMonth a) := by
        unfold dayFromCivil
        omega
      rw [h9]
      unfold isTaskActiveOnDate
      rw [hr, hf, ha]
      have hge : ¬ (dayFromCivil yv (monthOf a) (dayOfMonth a) < a) := by
        unfold dayFromCivil
        omega
      rw [if_neg hge]
      have hm : monthOf (dayFromCivil yv (monthOf a) (dayOfMonth a)) = monthOf a :=
        congrArg (fun p => p.2.1) hrt
      have hd : dayOfMonth (dayFromCivil yv (monthOf a) (dayOfMonth a)) = dayOfMonth a :=
        congrArg (fun p => p.2.2) hrt
      simp [hm, hd]
  · intro hany
    rw [anyActiveIn_iff] at hany
    obtain ⟨i, hi, hact⟩ := hany
    have hle := isActive_anchor_le t (jan1 yv + i) hact
    rw [yearFastPre, decide_eq_true_eq]
    unfold lastDayOfYear
    have hdy := daysInYear_pos yv
    omega

/-- A Yearly task anchored 2020-03-01 with an open series. -/
def openYearly : EmTask :=
  { id := "y3", title := "Open yearly", description := "",
    urgency := Urgency.low, importance := Importance.low,
    status := TaskStatus.todo, date := "2020-03-01",
    frequency := Frequency.yearly, createdAt := 0, updatedAt := 0,
    completedAt := none, history := [], completionHistory := [],
    recurrenceEndedAt := none }

/-- Witness for C7 (amended): the open Yearly task is active somewhere in
the 2025 Year view, by the proved equivalence applied to the passing fast
pre-filter. -/
theorem c7_witness : anyActiveIn openYearly (jan1 2025) (daysInYear 2025) = true :=
  ((c7_year_fast_filter_equiv openYearly 2025 (parseLocalTaskDate openYearly.date)
    rfl rfl rfl (by decide) (by decide)).2).mp (by decide)

/-! ## Bulk exchange: CSV export/import (`src/lib/utils.ts`), merge
(`handleMergeImport` in the extended `App.tsx`) -/

/-- A field needs quoting when it contains a comma, a double quote or a
newline (`exportToCSV`). -/
def needsQuote (s : List Char) : Bool :=
  s.any fun c => c == ',' || c == '"' || c == '\n'

/-- Double every internal double quote (`value.replace(/"/g, '""')`). -/
def dupQuotes : List Char → List Char
  | [] => []
  | c :: cs => if c = '"' then '"' :: '"' :: dupQuotes cs else c :: dupQuotes cs

/-- CSV field escaping of `exportToCSV`. -/
def escapeField (s : List Char) : List Char :=
  if needsQuote s then '"' :: (dupQuotes s ++ ['"']) else s

/-- `Array.prototype.join` with a one-character separator. -/
def intercalateChar (sep : Char) : List (List Char) → List Char
  | [] => []
  | [x] => x
  | x :: y :: rest => x ++ sep :: intercalateChar sep (y :: rest)

/-- The fixed export column order. -/
def csvHeaders : List String :=
  ["id", "title", "description", "urgency", "importance", "status", "date",
   "frequency", "createdAt", "updatedAt", "completedAt", "recurrenceEndedAt"]

/-- `String((task as any)[header])` with `undefined`/`null` mapped to the
empty string (`exportToCSV`). -/
def fieldValue (t : EmTask) (h : String) : List Char :=
  if h = "id" then t.id.data
  else if h = "title" then t.title.data
  else if h = "description" then t.description.data
  else if h = "urgency" then (urgencyStr t.urgency).data
  else if h = "importance" then (importanceStr t.importance).data
  else if h = "status" then (statusStr t.status).data
  else if h = "date" then t.date.data
  else if h = "frequency" then (frequencyStr t.frequency).data
  else if h = "createdAt" then (natStr t.createdAt).data
  else if h = "updatedAt" then (natStr t.updatedAt).data
  else if h = "completedAt" then
    match t.completedAt with
    | none => []
    | some n => (natStr n).data
  else if h = "recurrenceEndedAt" then
    match t.recurrenceEndedAt with
    | none => []
    | some n => (natStr n).data
  else []

/-- One CSV data row of `exportToCSV`. -/
def rowChars (t : EmTask) : List Char :=
  intercalateChar ',' (csvHeaders.map fun h => escapeField (fieldValue t h))

/-- The header row of `exportToCSV`. -/
def headerRow : List Char := intercalateChar ',' (csvHeaders.map String.data)

/-- `exportToCSV` as a character list: header row, then one row per task,
joined with `'\n'`. -/
def exportChars (ts : List EmTask) : List Char :=
  intercalateChar '\n' (headerRow :: ts.map rowChars)

/-- `exportToCSV(tasks)` from `src/lib/utils.ts`. -/
def exportToCSV (ts : List EmTask) : String := (exportChars ts).asString

/-- Re-attach a character to the first piece of a split result. -/
def consHead (c : Char) : List (List Char) → List (List Char)
  | [] => [[c]]
  | l :: ls => (c :: l) :: ls

/-- `csvText.split(/\r?\n/)`: split on LF or CRLF; a lone CR stays. -/
def splitLinesCRLF : List Char → List (List Char)
  | [] => [[]]
  | [c] =>
    if c = '\n' then [[], []]
    else [[c]]
  | c :: c2 :: rest =>
    if c = '\n' then [] :: splitLinesCRLF (c2 :: rest)
    else if c = '\r' ∧ c2 = '\n' then [] :: splitLinesCRLF rest
    else consHead c (splitLinesCRLF (c2 :: rest))

/-- JS whitespace test (the characters `String.prototype.trim` strips that
can occur in this pipeline). -/
def isJsSpace (c : Char) : Bool := c == ' ' || c == '\t' || c == '\n' || c == '\r'

/-- JS `String.prototype.trim`. -/
def jsTrim (l : List Char) : List Char :=
  ((l.dropWhile isJsSpace).reverse.dropWhile isJsSpace).reverse

/-- The per-line field scanner of `parseCSV`: walk the characters with a
current-field accumulator and an in-quotes flag; a doubled quote inside
quotes emits one quote, a comma outside quotes ends the field.  The first
argument is fuel (one unit per loop iteration; the wrapper supplies
`length + 1`, always enough because every iteration consumes at least one
character). -/
def parseLineAux : Nat → List Char → List Char → Bool → List (List Char)
  | 0, _, cur, _ => [cur]
  | _ + 1, [], cur, _ => [cur]
  | fuel + 1, c :: rest, cur, inQ =>
    if c = '"' then
      if inQ then
        match rest with
        | c2 :: rest2 =>
          if c2 = '"' then parseLineAux fuel rest2 (cur ++ ['"']) true
          else parseLineAux fuel rest cur false
        | [] => parseLineAux fuel rest cur false
      else parseLineAux fuel rest cur true
    else if c = ',' ∧ inQ = false then cur :: parseLineAux fuel rest [] inQ
    else parseLineAux fuel rest (cur ++ [c]) inQ

/-- Scan one line into its fields. -/
def parseLine (line : List Char) : List (List Char) :=
  parseLineAux (line.length + 1) line [] false

/-- The record shape produced by `parseCSV`: a `Partial<Task>` whose string
fields are the raw cell texts and whose timestamp fields were
number-parsed; `history`/`completionHistory` always start empty and are
not represented. -/
structure CsvRow where
  id : Option String := none
  title : Option String := none
  description : Option String := none
  urgency : Option String := none
  importance : Option String := none
  status : Option String := none
  date : Option String := none
  frequency : Option String := none
  createdAt : Option Nat := none
  updatedAt : Option Nat := none
  completedAt : Option Nat := none
  recurrenceEndedAt : Option Nat := none
deriving DecidableEq

/-- Assignment of one parsed cell under its header (`parseCSV`'s
`headers.forEach`): the four timestamp columns get `Number(val)` when the
cell is non-empty and stay undefined otherwise (JS `Number` on a
non-numeric string is `NaN`; only digit strings reach this point in the
round trip); every other known header stores the raw cell text; an unknown
header would set an extra property invisible on the `Task` shape, modelled
as no change. -/
def assignField (r : CsvRow) (h : String) (v : List Char) : CsvRow :=
  if h = "createdAt" then { r with createdAt := if v.isEmpty then none else some (toNatL v) }
  else if h = "updatedAt" then { r with updatedAt := if v.isEmpty then none else some (toNatL v) }
  else if h = "completedAt" then { r with completedAt := if v.isEmpty then none else some (toNatL v) }
  else if h = "recurrenceEndedAt" then
    { r with recurrenceEndedAt := if v.isEmpty then none else some (toNatL v) }
  else if h = "id" then { r with id := some v.asString }
  else if h = "title" then { r with title := some v.asString }
  else if h = "description" then { r with description := some v.asString }
  else if h = "urgency" then { r with urgency := some v.asString }
  else if h = "importance" then { r with importance := some v.asString }
  else if h = "status" then { r with status := some v.asString }
  else if h = "date" then { r with date := some v.asString }
  else if h = "frequency" then { r with frequency := some v.asString }
  else r

/-- Walk headers and parsed values in parallel; once the values run out,
every remaining assignment sees `undefined` and is skipped. -/
def buildRowAux : CsvRow → List String → List (List Char) → CsvRow
  | r, [], _ => r
  | r, _ :: _, [] => r
  | r, h :: hs, v :: vs => buildRowAux (assignField r h v) hs vs

/-- `parseCSV` from `src/lib/utils.ts` on a character list: split into
lines first (so an embedded newline inside a quoted field is severed),
take the first line as headers, drop blank lines, and scan each remaining
line into a record. -/
def parseCSVChars (text : List Char) : List CsvRow :=
  match splitLinesCRLF text with
  | [] => []
  | headerLine :: rest =>
    if rest.isEmpty then []
    else
      (rest.filter fun l => !(jsTrim l).isEmpty).map fun line =>
        buildRowAux {} ((splitOnChar ',' headerLine).map fun h => (jsTrim h).asString)
          (parseLine line)

/-- `parseCSV(csvText)` from `src/lib/utils.ts`. -/
def parseCSV (s : String) : List CsvRow := parseCSVChars s.data

/-- The record appended by `handleMergeImport` for one selected candidate:
fresh id, `createdAt` preserved when truthy (0 is falsy in JS) else now,
`updatedAt` refreshed, history and ledger defaulted; all other fields
carried over from the parsed candidate verbatim. -/
structure MergedTask where
  id : String
  title : Option String
  description : Option String
  urgency : Option String
  importance : Option String
  status : Option String
  date : Option String
  frequency : Option String
  createdAt : Nat
  updatedAt : Nat
  completedAt : Option Nat
  recurrenceEndedAt : Option Nat
  history : List HistoryEntry
  completionHistory : List (String × TaskStatus)
deriving DecidableEq

/-- Normalisation of one candidate in `handleMergeImport`. -/
def mergeNormalize (r : CsvRow) (newId : String) (now : Nat) : MergedTask :=
  { id := newId,
    title := r.title, description := r.description, urgency := r.urgency,
    importance := r.importance, status := r.status, date := r.date,
    frequency := r.frequency,
    createdAt := match r.createdAt with
      | some n => if n = 0 then now else n
      | none => now,
    updatedAt := now,
    completedAt := r.completedAt,
    recurrenceEndedAt := r.recurrenceEndedAt,
    history := [], completionHistory := [] }

/-- The new records `handleMergeImport` appends to the existing collection
(`setTasks([...tasks, ...tasksWithIds])`); each candidate receives a fresh
generated id. -/
def mergeImportNew (rows : List CsvRow) (genId : Nat → String) (now : Nat) : List MergedTask :=
  rows.enum.map fun e => mergeNormalize e.2 (genId e.1) now

/-- A task whose title contains an embedded newline (C4 counterexample). -/
def newlineTask : EmTask :=
  { id := "x1", title := "a\nb", description := "",
    urgency := Urgency.low, importance := Importance.low,
    status := TaskStatus.todo, date := "2024-01-03",
    frequency := Frequency.fnone, createdAt := 5, updatedAt := 5,
    completedAt := none, history := [], completionHistory := [],
    recurrenceEndedAt := none }


/-! ## CSV round-trip lemmas -/

/-- One-step unfolding of the line scanner on a cons cell. -/
theorem parseLineAux_cons (fuel : Nat) (c : Char) (rest cur : List Char) (inQ : Bool) :
    parseLineAux (fuel + 1) (c :: rest) cur inQ =
      if c = '"' then
        if inQ then
          match rest with
          | c2 :: rest2 =>
            if c2 = '"' then parseLineAux fuel rest2 (cur ++ ['"']) true
            else parseLineAux fuel rest cur false
          | [] => parseLineAux fuel rest cur false
        else parseLineAux fuel rest cur true
      else if c = ',' ∧ inQ = false then cur :: parseLineAux fuel rest [] inQ
      else parseLineAux fuel rest (cur ++ [c]) inQ := rfl

theorem parseLineAux_fuel (f1 : Nat) : ∀ (chars : List Char) (cur : List Char) (inQ : Bool)
    (f2 : Nat), chars.length < f1 → chars.length < f2 →
    parseLineAux f1 chars cur inQ = parseLineAux f2 chars cur inQ := by
  induction f1 with
  | zero =>
    intro chars cur inQ f2 h1 h2
    omega
  | succ g ih =>
    intro chars cur inQ f2 h1 h2
    match chars, f2 with
    | [], h + 1 => rfl
    | c :: rest, h + 1 =>
      simp only [List.length_cons] at h1 h2
      rw [parseLineAux_cons, parseLineAux_cons]
      by_cases hc : c = '"'
      · rw [if_pos hc, if_pos hc]
        cases inQ with
        | false =>
          simp only [Bool.false_eq_true, if_false]
          exact ih rest cur true h (by omega) (by omega)
        | true =>
          simp only [if_true]
          match rest with
          | [] =>
            dsimp only
            exact ih [] cur false h (by omega) (by omega)
          | c2 :: rest2 =>
            dsimp only
            simp only [List.length_cons] at h1 h2
            by_cases hc2 : c2 = '"'
            · rw [if_pos hc2, if_pos hc2]
              exact ih rest2 (cur ++ ['"']) true h (by omega) (by omega)
            · rw [if_neg hc2, if_neg hc2]
              refine ih (c2 :: rest2) cur false h ?_ ?_
              · simp only [List.length_cons]
                omega
              · simp only [List.length_cons]
                omega
      · rw [if_neg hc, if_neg hc]
        by_cases hcm : c = ',' ∧ inQ = false
        · rw [if_pos hcm, if_pos hcm]
          rw [ih rest [] inQ h (by omega) (by omega)]
        · rw [if_neg hcm, if_neg hcm]
          exact ih rest (cur ++ [c]) inQ h (by omega) (by omega)

/-- The total per-line scanner (fuel hidden). -/
def plRun (chars cur : List Char) (inQ : Bool) : List (List Char) :=
  parseLineAux (chars.length + 1) chars cur inQ

theorem parseLine_eq_plRun (line : List Char) : parseLine line = plRun line [] false := rfl

theorem plRun_nil (cur : List Char) (inQ : Bool) : plRun [] cur inQ = [cur] := rfl

theorem plRun_cons (c : Char) (rest cur : List Char) (inQ : Bool) :
    plRun (c :: rest) cur inQ =
      if c = '"' then
        if inQ then
          match rest with
          | c2 :: rest2 =>
            if c2 = '"' then plRun rest2 (cur ++ ['"']) true
            else plRun (c2 :: rest2) cur false
          | [] => [cur]
        else plRun rest cur true
      else if c = ',' ∧ inQ = false then cur :: plRun rest [] inQ
      else plRun rest (cur ++ [c]) inQ := by
  unfold plRun
  simp only [List.length_cons]
  rw [parseLineAux_cons]
  by_cases hc : c = '"'
  · rw [if_pos hc, if_pos hc]
    cases inQ with
    | false =>
      simp only [Bool.false_eq_true, if_false]
    | true =>
      simp only [if_true]
      match rest with
      | [] => rfl
      | c2 :: rest2 =>
        dsimp only
        simp only [List.length_cons]
        by_cases hc2 : c2 = '"'
        · rw [if_pos hc2, if_pos hc2]
          refine parseLineAux_fuel _ rest2 (cur ++ ['"']) true _ (by omega) (by omega)
        · rw [if_neg hc2, if_neg hc2]
  · rw [if_neg hc, if_neg hc]

theorem needsQuote_false_mem {f : List Char} (h : needsQuote f = false) {c : Char}
    (hc : c ∈ f) : c ≠ ',' ∧ c ≠ '"' ∧ c ≠ '\n' := by
  unfold needsQuote at h
  rw [List.any_eq_false] at h
  have h2 := h c hc
  simp at h2
  exact ⟨h2.1.1, h2.1.2, h2.2⟩

theorem plRun_plain : ∀ (f : List Char), needsQuote f = false →
    ∀ cur rest, plRun (f ++ rest) cur false = plRun rest (cur ++ f) false := by
  intro f
  induction f with
  | nil =>
    intro _ cur rest
    simp
  | cons c t ih =>
    intro hq cur rest
    have hmem := needsQuote_false_mem hq (List.mem_cons_self c t)
    have ht : needsQuote t = false := by
      unfold needsQuote at hq ⊢
      rw [List.any_eq_false] at hq ⊢
      intro x hx
      exact hq x (List.mem_cons_of_mem c hx)
    rw [List.cons_append, plRun_cons]
    rw [if_neg hmem.2.1, if_neg (by simp [hmem.1])]
    rw [ih ht (cur ++ [c]) rest, ← List.append_cons]

theorem plRun_quoted : ∀ (f cur rest : List Char),
    (rest = [] ∨ ∃ c2 r2, rest = c2 :: r2 ∧ c2 ≠ '"') →
    plRun (dupQuotes f ++ '"' :: rest) cur true = plRun rest (cur ++ f) false := by
  intro f
  induction f with
  | nil =>
    intro cur rest hrest
    simp only [dupQuotes, List.nil_append]
    rcases hrest with rfl | ⟨c2, r2, rfl, hc2⟩
    · rw [plRun_cons]
      simp [plRun_nil]
    · rw [plRun_cons]
      simp only [if_pos rfl, if_true]
      rw [if_neg hc2]
      simp
  | cons c t ih =>
    intro cur rest hrest
    by_cases hc : c = '"'
    · subst hc
      have hd : dupQuotes ('"' :: t) = '"' :: '"' :: dupQuotes t := by
        simp [dupQuotes]
      rw [hd, List.cons_append, List.cons_append, plRun_cons]
      simp only [if_pos rfl, if_true]
      rw [ih (cur ++ ['"']) rest hrest, ← List.append_cons]
    · have hd : dupQuotes (c :: t) = c :: dupQuotes t := by
        simp [dupQuotes, hc]
      rw [hd, List.cons_append, plRun_cons]
      rw [if_neg hc, if_neg (by simp)]
      rw [ih (cur ++ [c]) rest hrest, ← List.append_cons]

theorem plRun_field : ∀ (f cur rest : List Char),
    (rest = [] ∨ ∃ r2, rest = ',' :: r2) →
    plRun (escapeField f ++ rest) cur false = plRun rest (cur ++ f) false := by
  intro f cur rest hrest
  unfold escapeField
  by_cases hq : needsQuote f = true
  · rw [if_pos hq]
    rw [List.cons_append, plRun_cons]
    rw [if_pos rfl]
    simp only [Bool.false_eq_true, if_false]
    rw [List.append_assoc, List.singleton_append]
    refine plRun_quoted f cur rest ?_
    rcases hrest with rfl | ⟨r2, rfl⟩
    · exact Or.inl rfl
    · exact Or.inr ⟨',', r2, rfl, by decide⟩
  · rw [if_neg hq]
    exact plRun_plain f (by simpa using hq) cur rest

theorem plRun_fields_line : ∀ (fs : List (List Char)) (f cur : List Char),
    plRun (intercalateChar ',' ((f :: fs).map escapeField)) cur false = (cur ++ f) :: fs := by
  intro fs
  induction fs with
  | nil =>
    intro f cur
    show plRun (intercalateChar ',' [escapeField f]) cur false = _
    rw [intercalateChar]
    have h0 := plRun_field f cur [] (Or.inl rfl)
    rw [List.append_nil] at h0
    rw [h0, plRun_nil]
  | cons g gs ih =>
    intro f cur
    show plRun (intercalateChar ','
      (escapeField f :: escapeField g :: gs.map escapeField)) cur false = _
    rw [intercalateChar]
    rw [plRun_field f cur (',' :: intercalateChar ',' (escapeField g :: gs.map escapeField))
      (Or.inr ⟨_, rfl⟩)]
    rw [plRun_cons]
    rw [if_neg (by decide), if_pos ⟨rfl, rfl⟩]
    have h1 := ih g []
    simp only [List.map] at h1
    rw [h1]
    simp

/-- No line-break characters (the hypothesis under which line splitting
cannot sever a record). -/
def noBreak (l : List Char) : Prop := ∀ c ∈ l, c ≠ '\n' ∧ c ≠ '\r'

theorem splitLinesCRLF_single : ∀ (row : List Char), noBreak row →
    splitLinesCRLF row = [row] := by
  intro row
  induction row with
  | nil =>
    intro _
    rfl
  | cons c t ih =>
    intro h
    have hc := h c (List.mem_cons_self c t)
    have ht : noBreak t := fun x hx => h x (List.mem_cons_of_mem c hx)
    match t with
    | [] =>
      show splitLinesCRLF [c] = [[c]]
      unfold splitLinesCRLF
      rw [if_neg hc.1]
    | c2 :: t2 =>
      show splitLinesCRLF (c :: c2 :: t2) = [c :: c2 :: t2]
      unfold splitLinesCRLF
      rw [if_neg hc.1, if_neg (by simp [hc.2])]
      rw [ih ht]
      rfl

theorem splitLinesCRLF_cons2 (c c2 : Char) (rest : List Char) :
    splitLinesCRLF (c :: c2 :: rest) =
      if c = '\n' then [] :: splitLinesCRLF (c2 :: rest)
      else if c = '\r' ∧ c2 = '\n' then [] :: splitLinesCRLF rest
      else consHead c (splitLinesCRLF (c2 :: rest)) := rfl

theorem splitLinesCRLF_append : ∀ (row tail : List Char), noBreak row →
    splitLinesCRLF (row ++ '\n' :: tail) = row :: splitLinesCRLF tail := by
  intro row
  induction row with
  | nil =>
    intro tail _
    match tail with
    | [] => rfl
    | c :: t =>
      show splitLinesCRLF ('\n' :: c :: t) = [] :: splitLinesCRLF (c :: t)
      rw [splitLinesCRLF_cons2, if_pos rfl]
  | cons c t ih =>
    intro tail h
    have hc := h c (List.mem_cons_self c t)
    have ht : noBreak t := fun x hx => h x (List.mem_cons_of_mem c hx)
    rw [List.cons_append]
    match he : t ++ '\n' :: tail with
    | [] => exact absurd he (by simp)
    | c2 :: t2 =>
      rw [splitLinesCRLF_cons2]
      rw [if_neg hc.1, if_neg (by simp [hc.2])]
      rw [← he, ih tail ht]
      rfl

theorem splitLinesCRLF_rows : ∀ (rows : List (List Char)), (∀ r ∈ rows, noBreak r) →
    rows ≠ [] → splitLinesCRLF (intercalateChar '\n' rows) = rows := by
  intro rows
  induction rows with
  | nil =>
    intro _ hne
    exact absurd rfl hne
  | cons r tail ih =>
    intro h _
    match tail with
    | [] =>
      show splitLinesCRLF (intercalateChar '\n' [r]) = [r]
      rw [intercalateChar]
      exact splitLinesCRLF_single r (h r (List.mem_cons_self r []))
    | r2 :: tail2 =>
      show splitLinesCRLF (intercalateChar '\n' (r :: r2 :: tail2)) = _
      rw [intercalateChar]
      rw [splitLinesCRLF_append r _ (h r (List.mem_cons_self r _))]
      rw [ih (fun x hx => h x (List.mem_cons_of_mem r hx)) (by simp)]

/-! Cleanliness of the exported rows. -/

theorem dupQuotes_mem : ∀ (f : List Char) (c : Char), c ∈ dupQuotes f → c ∈ f ∨ c = '"' := by
  intro f
  induction f with
  | nil =>
    intro c hc
    simp [dupQuotes] at hc
  | cons a t ih =>
    intro c hc
    by_cases ha : a = '"'
    · rw [show dupQuotes (a :: t) = '"' :: '"' :: dupQuotes t from by simp [dupQuotes, ha]] at hc
      rcases List.mem_cons.mp hc with rfl | hc
      · exact Or.inr rfl
      · rcases List.mem_cons.mp hc with rfl | hc
        · exact Or.inr rfl
        · rcases ih c hc with h | h
          · exact Or.inl (List.mem_cons_of_mem a h)
          · exact Or.inr h
    · rw [show dupQuotes (a :: t) = a :: dupQuotes t from by simp [dupQuotes, ha]] at hc
      rcases List.mem_cons.mp hc with rfl | hc
      · exact Or.inl (List.mem_cons_self c t)
      · rcases ih c hc with h | h
        · exact Or.inl (List.mem_cons_of_mem a h)
        · exact Or.inr h

theorem escapeField_mem (f : List Char) (c : Char) (hc : c ∈ escapeField f) :
    c ∈ f ∨ c = '"' := by
  unfold escapeField at hc
  by_cases hq : needsQuote f = true
  · rw [if_pos hq] at hc
    rcases List.mem_cons.mp hc with rfl | hc
    · exact Or.inr rfl
    · rcases List.mem_append.mp hc with hc | hc
      · exact dupQuotes_mem f c hc
      · simp at hc
        exact Or.inr hc
  · rw [if_neg hq] at hc
    exact Or.inl hc

theorem escapeField_noBreak (f : List Char) (hf : noBreak f) : noBreak (escapeField f) := by
  intro c hc
  rcases escapeField_mem f c hc with h | rfl
  · exact hf c h
  · exact ⟨by decide, by decide⟩

theorem intercalateChar_mem (sep : Char) : ∀ (ls : List (List Char)) (c : Char),
    c ∈ intercalateChar sep ls → c = sep ∨ ∃ l ∈ ls, c ∈ l := by
  intro ls
  induction ls with
  | nil =>
    intro c hc
    simp [intercalateChar] at hc
  | cons x tail ih =>
    intro c hc
    match tail with
    | [] =>
      rw [intercalateChar] at hc
      exact Or.inr ⟨x, List.mem_cons_self x [], hc⟩
    | y :: rest =>
      rw [intercalateChar] at hc
      rcases List.mem_append.mp hc with hc | hc
      · exact Or.inr ⟨x, List.mem_cons_self x _, hc⟩
      · rcases List.mem_cons.mp hc with rfl | hc
        · exact Or.inl rfl
        · rcases ih c hc with h | ⟨l, hl, hcl⟩
          · exact Or.inl h
          · exact Or.inr ⟨l, List.mem_cons_of_mem x hl, hcl⟩

theorem digit_noBreak : ∀ c ∈ digitChars, c ≠ '\n' ∧ c ≠ '\r' := by decide

theorem natStr_noBreak (n : Nat) : noBreak (natStr n).data :=
  fun c hc => digit_noBreak c (natStr_chars n c hc)

theorem urgencyStr_noBreak (u : Urgency) : noBreak (urgencyStr u).data := by
  cases u <;> (unfold noBreak; decide)

theorem importanceStr_noBreak (i : Importance) : noBreak (importanceStr i).data := by
  cases i <;> (unfold noBreak; decide)

theorem statusStr_noBreak (s : TaskStatus) : noBreak (statusStr s).data := by
  cases s <;> (unfold noBreak; decide)

theorem frequencyStr_noBreak (f : Frequency) : noBreak (frequencyStr f).data := by
  cases f <;> (unfold noBreak; decide)

/-- Cleanliness of the four free string fields of a task. -/
def cleanTask (t : EmTask) : Prop :=
  noBreak t.id.data ∧ noBreak t.title.data ∧ noBreak t.description.data ∧ noBreak t.date.data

theorem fieldValue_noBreak (t : EmTask) (hct : cleanTask t) :
    ∀ h ∈ csvHeaders, noBreak (fieldValue t h) := by
  intro h hmem
  simp only [csvHeaders, List.mem_cons, List.not_mem_nil, or_false] at hmem
  rcases hmem with rfl | rfl | rfl | rfl | rfl | rfl | rfl | rfl | rfl | rfl | rfl | rfl
  · exact hct.1
  · exact hct.2.1
  · exact hct.2.2.1
  · exact urgencyStr_noBreak t.urgency
  · exact importanceStr_noBreak t.importance
  · exact statusStr_noBreak t.status
  · exact hct.2.2.2
  · exact frequencyStr_noBreak t.frequency
  · exact natStr_noBreak t.createdAt
  · exact natStr_noBreak t.updatedAt
  · show noBreak (fieldValue t "completedAt")
    rw [show fieldValue t "completedAt"
        = (match t.completedAt with | none => [] | some n => (natStr n).data) from rfl]
    match t.completedAt with
    | none => exact fun c hc => absurd hc (by simp)
    | some n => exact natStr_noBreak n
  · show noBreak (fieldValue t "recurrenceEndedAt")
    rw [show fieldValue t "recurrenceEndedAt"
        = (match t.recurrenceEndedAt with | none => [] | some n => (natStr n).data) from rfl]
    match t.recurrenceEndedAt with
    | none => exact fun c hc => absurd hc (by simp)
    | some n => exact natStr_noBreak n

theorem rowChars_noBreak (t : EmTask) (hct : cleanTask t) : noBreak (rowChars t) := by
  intro c hc
  unfold rowChars at hc
  rcases intercalateChar_mem ',' _ c hc with rfl | ⟨l, hl, hcl⟩
  · exact ⟨by decide, by decide⟩
  · rcases List.mem_map.mp hl with ⟨h, hh, rfl⟩
    rcases escapeField_mem _ c hcl with hmem | rfl
    · exact fieldValue_noBreak t hct h hh c hmem
    · exact ⟨by decide, by decide⟩

theorem headerRow_noBreak : noBreak headerRow := by
  unfold noBreak
  decide

theorem mem_dropWhile_of_not (p : Char → Bool) : ∀ (l : List Char) (c : Char),
    c ∈ l → p c = false → c ∈ l.dropWhile p := by
  intro l
  induction l with
  | nil =>
    intro c hc _
    simp at hc
  | cons a t ih =>
    intro c hc hp
    by_cases ha : p a = true
    · rw [List.dropWhile_cons_of_pos ha]
      rcases List.mem_cons.mp hc with rfl | hc
    -- c = a contradicts p c = false
      · rw [hp] at ha
        exact absurd ha (by simp)
      · exact ih c hc hp
    · rw [List.dropWhile_cons_of_neg ha]
      exact hc

theorem jsTrim_ne_nil (l : List Char) (c : Char) (hc : c ∈ l) (hns : isJsSpace c = false) :
    jsTrim l ≠ [] := by
  intro hnil
  unfold jsTrim at hnil
  rw [List.reverse_eq_nil_iff] at hnil
  rw [List.dropWhile_eq_nil_iff] at hnil
  have h1 : c ∈ l.dropWhile isJsSpace := mem_dropWhile_of_not isJsSpace l c hc hns
  have h2 : c ∈ (l.dropWhile isJsSpace).reverse := List.mem_reverse.mpr h1
  have := hnil c h2
  rw [hns] at this
  exact absurd this (by simp)

theorem comma_mem_rowChars (t : EmTask) : ',' ∈ rowChars t := by
  unfold rowChars
  simp only [csvHeaders, List.map_cons]
  rw [intercalateChar]
  simp

theorem rowChars_kept (t : EmTask) : (!(jsTrim (rowChars t)).isEmpty) = true := by
  have h := jsTrim_ne_nil (rowChars t) ',' (comma_mem_rowChars t) (by decide)
  cases hj : jsTrim (rowChars t) with
  | nil => exact absurd hj h
  | cons a l => rfl

theorem headers_eq :
    ((splitOnChar ',' headerRow).map fun h => (jsTrim h).asString) = csvHeaders := by
  decide

theorem buildRowAux_headers (v0 v1 v2 v3 v4 v5 v6 v7 v8 v9 v10 v11 : List Char) :
    buildRowAux {} csvHeaders [v0, v1, v2, v3, v4, v5, v6, v7, v8, v9, v10, v11] =
      { id := some v0.asString, title := some v1.asString, description := some v2.asString,
        urgency := some v3.asString, importance := some v4.asString,
        status := some v5.asString, date := some v6.asString, frequency := some v7.asString,
        createdAt := if v8.isEmpty then none else some (toNatL v8),
        updatedAt := if v9.isEmpty then none else some (toNatL v9),
        completedAt := if v10.isEmpty then none else some (toNatL v10),
        recurrenceEndedAt := if v11.isEmpty then none else some (toNatL v11) } := rfl

theorem natStr_isEmpty (n : Nat) : ((natStr n).data).isEmpty = false := by
  cases h : (natStr n).data with
  | nil => exact absurd h (natStr_ne_nil n)
  | cons a l => rfl

/-- The record that parsing an exported row reproduces: every visible field
as its exported string, timestamps re-parsed from their decimal rendering,
an absent `completedAt`/`recurrenceEndedAt` staying absent. -/
def expectedRow (t : EmTask) : CsvRow :=
  { id := some t.id, title := some t.title, description := some t.description,
    urgency := some (urgencyStr t.urgency), importance := some (importanceStr t.importance),
    status := some (statusStr t.status), date := some t.date,
    frequency := some (frequencyStr t.frequency),
    createdAt := some (toNatL (natStr t.createdAt).data),
    updatedAt := some (toNatL (natStr t.updatedAt).data),
    completedAt := match t.completedAt with
      | none => none
      | some n => some (toNatL (natStr n).data),
    recurrenceEndedAt := match t.recurrenceEndedAt with
      | none => none
      | some n => some (toNatL (natStr n).data) }

theorem parseLine_rowChars (t : EmTask) :
    parseLine (rowChars t) =
      [fieldValue t "id", fieldValue t "title", fieldValue t "description",
       fieldValue t "urgency", fieldValue t "importance", fieldValue t "status",
       fieldValue t "date", fieldValue t "frequency", fieldValue t "createdAt",
       fieldValue t "updatedAt", fieldValue t "completedAt",
       fieldValue t "recurrenceEndedAt"] := by
  rw [parseLine_eq_plRun]
  unfold rowChars
  have hmap : (csvHeaders.map fun h => escapeField (fieldValue t h))
      = ((fieldValue t "id" ::
          [fieldValue t "title", fieldValue t "description", fieldValue t "urgency",
           fieldValue t "importance", fieldValue t "status", fieldValue t "date",
           fieldValue t "frequency", fieldValue t "createdAt", fieldValue t "updatedAt",
           fieldValue t "completedAt", fieldValue t "recurrenceEndedAt"]).map escapeField) := rfl
  rw [hmap, plRun_fields_line]
  simp

theorem buildRow_row (t : EmTask) :
    buildRowAux {} csvHeaders
      [fieldValue t "id", fieldValue t "title", fieldValue t "description",
       fieldValue t "urgency", fieldValue t "importance", fieldValue t "status",
       fieldValue t "date", fieldValue t "frequency", fieldValue t "createdAt",
       fieldValue t "updatedAt", fieldValue t "completedAt",
       fieldValue t "recurrenceEndedAt"] = expectedRow t := by
  rw [buildRowAux_headers]
  unfold expectedRow
  simp only [CsvRow.mk.injEq]
  refine ⟨rfl, rfl, rfl, rfl, rfl, rfl, rfl, rfl, ?_, ?_, ?_, ?_⟩
  · rw [show fieldValue t "createdAt" = (natStr t.createdAt).data from rfl]
    simp [natStr_isEmpty]
  · rw [show fieldValue t "updatedAt" = (natStr t.updatedAt).data from rfl]
    simp [natStr_isEmpty]
  · rw [show fieldValue t "completedAt"
        = (match t.completedAt with | none => [] | some n => (natStr n).data) from rfl]
    cases t.completedAt with
    | none => simp
    | some n => simp [natStr_isEmpty]
  · rw [show fieldValue t "recurrenceEndedAt"
        = (match t.recurrenceEndedAt with | none => [] | some n => (natStr n).data) from rfl]
    cases t.recurrenceEndedAt with
    | none => simp
    | some n => simp [natStr_isEmpty]

/-- Parsing an export reproduces one record per task with the expected
fields, provided no free-text field contains a line break. -/
theorem parseCSV_export (ts : List EmTask) (hclean : ∀ t ∈ ts, cleanTask t) :
    parseCSV (exportToCSV ts) = ts.map expectedRow := by
  match ts with
  | [] =>
    show parseCSVChars ((exportChars []).asString).data = []
    rw [show ((exportChars []).asString).data = exportChars [] from rfl]
    rw [show exportChars [] = headerRow from rfl]
    unfold parseCSVChars
    rw [splitLinesCRLF_single headerRow headerRow_noBreak]
    rfl
  | t0 :: ts' =>
    show parseCSVChars ((exportChars (t0 :: ts')).asString).data = _
    rw [show ((exportChars (t0 :: ts')).asString).data = exportChars (t0 :: ts') from rfl]
    unfold exportChars parseCSVChars
    have hall : ∀ r ∈ headerRow :: (t0 :: ts').map rowChars, noBreak r := by
      intro r hr
      rcases List.mem_cons.mp hr with rfl | hr
      · exact headerRow_noBreak
      · rcases List.mem_map.mp hr with ⟨u, hu, rfl⟩
        exact rowChars_noBreak u (hclean u hu)
    rw [splitLinesCRLF_rows _ hall (by simp)]
    have hne : (((t0 :: ts').map rowChars).isEmpty) = false := by
      simp
    simp only [hne, Bool.false_eq_true, if_false]
    rw [List.filter_eq_self.mpr ?kept]
    case kept =>
      intro l hl
      rcases List.mem_map.mp hl with ⟨u, hu, rfl⟩
      exact rowChars_kept u
    simp only [headers_eq, List.map_map]
    refine List.map_congr_left ?_
    intro u hu
    show buildRowAux {} csvHeaders (parseLine (rowChars u)) = expectedRow u
    rw [parseLine_rowChars, buildRow_row]

instance (l : List Char) : Decidable (noBreak l) := by
  unfold noBreak
  infer_instance

instance (t : EmTask) : Decidable (cleanTask t) := by
  unfold cleanTask
  infer_instance

theorem enumFrom_merge_map {α : Type} (genId : Nat → String) (now : Nat)
    (f : MergedTask → α) (g : CsvRow → α)
    (h : ∀ r s, f (mergeNormalize r s now) = g r) :
    ∀ (rows : List CsvRow) (k : Nat),
      ((List.enumFrom k rows).map fun e => mergeNormalize e.2 (genId e.1) now).map f
        = rows.map g := by
  intro rows
  induction rows with
  | nil =>
    intro k
    rfl
  | cons r rest ih =>
    intro k
    simp only [List.enumFrom, List.map_cons]
    rw [ih (k + 1), h r (genId k)]

theorem mergeImportNew_map {α : Type} (rows : List CsvRow) (genId : Nat → String) (now : Nat)
    (f : MergedTask → α) (g : CsvRow → α) (h : ∀ r s, f (mergeNormalize r s now) = g r) :
    (mergeImportNew rows genId now).map f = rows.map g :=
  enumFrom_merge_map genId now f g h rows 0

theorem mergeImportNew_length (rows : List CsvRow) (genId : Nat → String) (now : Nat) :
    (mergeImportNew rows genId now).length = rows.length := by
  unfold mergeImportNew
  rw [List.length_map, List.enum_length]

set_option maxRecDepth 4000 in
/-- C4 counterexample: a task whose title contains an embedded newline does
not survive export-parse-merge — the parser splits the text into lines
before scanning quotes, so the quoted title is severed and the record list
does not reproduce the original titles. -/
theorem c4_counterexample :
    (mergeImportNew (parseCSV (exportToCSV [newlineTask])) natStr 0).map (fun m => m.title)
      ≠ [some newlineTask.title] := by
  decide

/-- C4 (amended): for every task list whose id, title, description and date
contain no line-break characters (LF or CR) — commas and double quotes are
fine — exporting, parsing and merging all candidates yields exactly one
record per original task whose title, description, urgency, importance,
status, date and frequency equal the original's (enum fields compared via
their exported string forms); identities and timestamps are regenerated. -/
theorem c4_export_import_merge_roundtrip (ts : List EmTask) (genId : Nat → String) (now : Nat)
    (hclean : ∀ t ∈ ts, cleanTask t) :
    (mergeImportNew (parseCSV (exportToCSV ts)) genId now).length = ts.length ∧
    (mergeImportNew (parseCSV (exportToCSV ts)) genId now).map (fun m => m.title)
      = ts.map (fun t => some t.title) ∧
    (mergeImportNew (parseCSV (exportToCSV ts)) genId now).map (fun m => m.description)
      = ts.map (fun t => some t.description) ∧
    (mergeImportNew (parseCSV (exportToCSV ts)) genId now).map (fun m => m.urgency)
      = ts.map (fun t => some (urgencyStr t.urgency)) ∧
    (mergeImportNew (parseCSV (exportToCSV ts)) genId now).map (fun m => m.importance)
      = ts.map (fun t => some (importanceStr t.importance)) ∧
    (mergeImportNew (parseCSV (exportToCSV ts)) genId now).map (fun m => m.status)
      = ts.map (fun t => some (statusStr t.status)) ∧
    (mergeImportNew (parseCSV (exportToCSV ts)) genId now).map (fun m => m.date)
      = ts.map (fun t => some t.date) ∧
    (mergeImportNew (parseCSV (exportToCSV ts)) genId now).map (fun m => m.frequency)
      = ts.map (fun t => some (frequencyStr t.frequency)) := by
  rw [parseCSV_export ts hclean]
  refine ⟨?_, ?_, ?_, ?_, ?_, ?_, ?_, ?_⟩
  · rw [mergeImportNew_length, List.length_map]
  · rw [mergeImportNew_map _ genId now _ (fun r => r.title) (fun r s => rfl), List.map_map]
    rfl
  · rw [mergeImportNew_map _ genId now _ (fun r => r.description) (fun r s => rfl), List.map_map]
    rfl
  · rw [mergeImportNew_map _ genId now _ (fun r => r.urgency) (fun r s => rfl), List.map_map]
    rfl
  · rw [mergeImportNew_map _ genId now _ (fun r => r.importance) (fun r s => rfl), List.map_map]
    rfl
  · rw [mergeImportNew_map _ genId now _ (fun r => r.status) (fun r s => rfl), List.map_map]
    rfl
  · rw [mergeImportNew_map _ genId now _ (fun r => r.date) (fun r s => rfl), List.map_map]
    rfl
  · rw [mergeImportNew_map _ genId now _ (fun r => r.frequency) (fun r s => rfl), List.map_map]
    rfl

/-- A task whose free-text fields contain commas and double quotes. -/
def trickyTask : EmTask :=
  { id := "q1", title := "a,\"b\"", description := "line, with ,, and \"\"quotes\"\"",
    urgency := Urgency.high, importance := Importance.low,
    status := TaskStatus.inProgress, date := "2024-02-29",
    frequency := Frequency.weekly, createdAt := 123, updatedAt := 456,
    completedAt := some 789, history := [], completionHistory := [],
    recurrenceEndedAt := none }

set_option maxRecDepth 4000 in
/-- Witness for C4 (amended): the comma-and-quote-laden task round-trips. -/
theorem c4_witness :
    (mergeImportNew (parseCSV (exportToCSV [trickyTask])) natStr 9).map (fun m => m.title)
      = [some trickyTask.title] :=
  (c4_export_import_merge_roundtrip [trickyTask] natStr 9 (by decide)).2.1
